import Mathlib

/-!
# Trade cost simulator: order-book store, metrics calculator and update pipeline

A shallow embedding of `TradeSimulator` (src/Trade_Simulation.cpp.cpp).

* C++ `double` values are read as elements of a linearly ordered field `K`
  (exact arithmetic; `ℚ` for evaluation, `ℝ` for the analytic statements).
  Rounding, infinities and not-a-number values are not represented.
  The library functions `std::exp`, `std::pow`, `std::sqrt`, `std::isfinite`
  are the fields of `MathOps`; `std::stod` and `std::stol` are parameters
  returning `none` where the library raises an exception.
* The object state of `TradeSimulator` is the structure `TradeSimulator K`;
  every member function is a function from state to state.
* A rapidjson document is a `JValue`.
-/

namespace TradeSim

/-! ## rapidjson values -/

/-- A parsed JSON value (`rapidjson::Value`). A number keeps its lexeme: the
program never reads a JSON number. -/
inductive JValue where
  | null : JValue
  | bool (b : Bool) : JValue
  | number (lexeme : String) : JValue
  | string (s : String) : JValue
  | array (elems : List JValue) : JValue
  | object (members : List (String × JValue)) : JValue

namespace JValue

/-- `Value::IsObject`. -/
def IsObject : JValue → Bool
  | object _ => true
  | _ => false

/-- `Value::IsArray`. -/
def IsArray : JValue → Bool
  | array _ => true
  | _ => false

/-- `Value::IsString`. -/
def IsString : JValue → Bool
  | string _ => true
  | _ => false

/-- `Value::GetString` (the empty string stands for a value that is no string;
the program only calls it behind `IsString`). -/
def GetString : JValue → String
  | string s => s
  | _ => ""

/-- `Value::GetArray` (the empty list stands for a value that is no array; the
program only calls it behind `IsArray`). -/
def GetArray : JValue → List JValue
  | array xs => xs
  | _ => []

/-- `Value::Size` of an array. -/
def Size (v : JValue) : Nat := v.GetArray.length

/-- `Value::Empty` of an array. -/
def Empty (v : JValue) : Bool := v.GetArray.isEmpty

/-- `Value::operator[](SizeType)`: the element at an index of an array (`null`
stands for an index out of range; the program only indexes behind a size
check). -/
def idx (v : JValue) (i : Nat) : JValue := v.GetArray.getD i null

/-- The member list of an object (empty for a value that is no object). -/
def members : JValue → List (String × JValue)
  | object ms => ms
  | _ => []

end JValue

/-- The members of a JSON object, in document order. -/
abbrev JObject := List (String × JValue)

/-- `Value::FindMember`: the first member with the given name. -/
def JObject.find : JObject → String → Option JValue
  | [], _ => none
  | (k, v) :: rest, name => if k = name then some v else JObject.find rest name

/-- `Value::HasMember`. -/
def JObject.HasMember (o : JObject) (name : String) : Bool := (o.find name).isSome

/-- `Value::operator[](const char*)` (`null` stands for an absent member; the
program only reads a member behind `HasMember`). -/
def JObject.get (o : JObject) (name : String) : JValue := (o.find name).getD JValue.null

/-! ## Order book -/

/-- The order book: `struct Orderbook` without its mutex. A level is a pair
`(price, quantity)`. -/
structure Orderbook (K : Type) where
  bids : List (K × K)
  asks : List (K × K)
  timestamp : Int

/-- How a call ended: it returned, or a C++ exception left it. Either way the
state the call leaves behind is recorded. -/
inductive Outcome (σ : Type) where
  | returned (s : σ) : Outcome σ
  | threw (s : σ) : Outcome σ

/-- The state a call leaves behind. -/
def Outcome.state {σ : Type} : Outcome σ → σ
  | returned s => s
  | threw s => s

/-- Whether the call ended by an exception. -/
def Outcome.isThrow {σ : Type} : Outcome σ → Bool
  | returned _ => false
  | threw _ => true

/-- The guard of the level loops of `process_orderbook` (lines 219 and 223):
`!bid.IsArray() || bid.Size() < 2 || !bid[0].IsString() || !bid[1].IsString()`. -/
def levelSkipped (bid : JValue) : Bool :=
  !bid.IsArray || decide (bid.Size < 2) || !(bid.idx 0).IsString || !(bid.idx 1).IsString

/-- One level loop of `process_orderbook` (lines 218-221, 222-225): every
level that fails the guard is skipped with `continue`; the others are parsed
by `std::stod` and appended to the deque. `std::stod` raising an exception
(`none`) leaves the loop with the deque as built so far. -/
def levelLoop {K : Type} (stod : String → Option K) :
    List JValue → List (K × K) → Outcome (List (K × K))
  | [], acc => Outcome.returned acc
  | bid :: rest, acc =>
    if levelSkipped bid then levelLoop stod rest acc
    else
      match stod (bid.idx 0).GetString, stod (bid.idx 1).GetString with
      | some price, some qty => levelLoop stod rest (acc ++ [(price, qty)])
      | _, _ => Outcome.threw acc

/-- The format guard of `process_orderbook` (lines 212-214). -/
def recordInvalid (data : JObject) : Bool :=
  !data.HasMember "bids" || !(data.get "bids").IsArray ||
  !data.HasMember "asks" || !(data.get "asks").IsArray ||
  !data.HasMember "ts" || !(data.get "ts").IsString

/-- `TradeSimulator::process_orderbook` (lines 208-243) on the order book. The
record `data` is a JSON object, given by its members. Both sides are cleared
first; the format guard then returns, or the two level loops and the
timestamp conversion run. The logging at the end (lines 227-242) writes to
`std::cout` only and changes no state. -/
def process_orderbook {K : Type} (stod : String → Option K) (stol : String → Option Int)
    (orderbook_ : Orderbook K) (data : JObject) : Outcome (Orderbook K) :=
  let cleared : Orderbook K := { orderbook_ with bids := [], asks := [] }
  if recordInvalid data then Outcome.returned cleared
  else
    match levelLoop stod (data.get "bids").GetArray cleared.bids with
    | Outcome.threw bids => Outcome.threw { cleared with bids := bids }
    | Outcome.returned bids =>
      match levelLoop stod (data.get "asks").GetArray cleared.asks with
      | Outcome.threw asks => Outcome.threw { cleared with bids := bids, asks := asks }
      | Outcome.returned asks =>
        match stol (data.get "ts").GetString with
        | none => Outcome.threw { cleared with bids := bids, asks := asks }
        | some ts => Outcome.returned { bids := bids, asks := asks, timestamp := ts }

/-! ## Simulator state -/

/-- The functions of `<cmath>` the calculator calls. -/
structure MathOps (K : Type) where
  exp : K → K
  pow : K → K → K
  sqrt : K → K
  isfinite : K → Bool

/-- One record of the hand-off queue: `struct UIData`. -/
structure UIData (K : Type) where
  slippage : K
  fees : K
  market_impact : K
  net_cost : K
  maker_proportion : K
  volatility : K
  latency_ms : K

/-- What one call of `report_benchmarks` writes to `std::cout` (lines
359-361): the update number and the two averages. -/
structure BenchmarkLine (K : Type) where
  update : Nat
  avg_json_parse : K
  avg_e2e : K

/-- The data members of `class TradeSimulator` (lines 45-80) that the message
path reads or writes. `benchmark_out` records the lines `report_benchmarks`
has written to `std::cout`, oldest first. -/
structure TradeSimulator (K : Type) where
  orderbook_ : Orderbook K
  quantity_ : K
  volatility_ : K
  maker_fee_ : K
  taker_fee_ : K
  slippage_ : K
  fees_ : K
  market_impact_ : K
  net_cost_ : K
  maker_proportion_ : K
  latency_ms_ : K
  cached_mid_price_ : K
  cached_spread_ : K
  json_parse_latencies_ : List K
  data_proc_latencies_ : List K
  ui_update_latencies_ : List K
  e2e_latencies_ : List K
  update_count_ : Nat
  ui_queue_ : List (UIData K)
  logged_json_ : Bool
  benchmark_out : List (BenchmarkLine K)

/-- `benchmark_interval_` (line 73). -/
def benchmark_interval_ : Nat := 100

/-- The state after construction: the default member initialisers of lines
49-80. The time stamp of the book is not initialised by the program and is a
parameter. -/
def TradeSimulator.initial (K : Type) [LinearOrderedField K] (timestamp : Int) :
    TradeSimulator K where
  orderbook_ := { bids := [], asks := [], timestamp := timestamp }
  quantity_ := 0.0021
  volatility_ := 0.01
  maker_fee_ := 0.001
  taker_fee_ := 0.0015
  slippage_ := 0
  fees_ := 0
  market_impact_ := 0
  net_cost_ := 0
  maker_proportion_ := 0.5
  latency_ms_ := 0
  cached_mid_price_ := 0
  cached_spread_ := 0
  json_parse_latencies_ := []
  data_proc_latencies_ := []
  ui_update_latencies_ := []
  e2e_latencies_ := []
  update_count_ := 0
  ui_queue_ := []
  logged_json_ := false
  benchmark_out := []

/-! ## Metrics calculator -/

section Calculator

variable {K : Type} [LinearOrderedField K]

/-- `std::min(a, b)`: `(b < a) ? b : a`. -/
def stdMin (a b : K) : K := if b < a then b else a

/-- `std::max(a, b)`: `(a < b) ? b : a`. -/
def stdMax (a b : K) : K := if a < b then b else a

/-- The scan of lines 252-259 (and 228-235): the index reached by
`idx = 0; while (idx < size && side[idx].second <= 0.0) ++idx;`, by recursion
on the levels from the front. -/
def firstValidIdx : List (K × K) → Nat
  | [] => 0
  | lvl :: rest => if lvl.2 ≤ 0 then firstValidIdx rest + 1 else 0

/-- The slippage loop of lines 271-277. The first argument counts the
iterations the `for` header still allows (`valid_ask_idx + max_levels - i`),
the second is `i`; the result is `(cumulative_qty, weighted_price)`. -/
def slippageLoop (quantity_ : K) (asks : List (K × K)) : Nat → Nat → K → K → K × K
  | 0, _, cumulative_qty, weighted_price => (cumulative_qty, weighted_price)
  | n + 1, i, cumulative_qty, weighted_price =>
    if quantity_ ≤ cumulative_qty ∨ asks.length ≤ i then (cumulative_qty, weighted_price)
    else if (asks.getD i (0, 0)).2 ≤ 0 then
      slippageLoop quantity_ asks n (i + 1) cumulative_qty weighted_price
    else
      let qty := stdMin (quantity_ - cumulative_qty) (asks.getD i (0, 0)).2
      slippageLoop quantity_ asks n (i + 1) (cumulative_qty + qty)
        (weighted_price + qty * (asks.getD i (0, 0)).1)

/-- `TradeSimulator::calculate_outputs` (lines 246-300). -/
def calculate_outputs (ops : MathOps K) (s : TradeSimulator K) : TradeSimulator K :=
  let bids := s.orderbook_.bids
  let asks := s.orderbook_.asks
  if bids.isEmpty || asks.isEmpty then s
  else
    let valid_bid_idx := firstValidIdx bids
    let valid_ask_idx := firstValidIdx asks
    if bids.length ≤ valid_bid_idx ∨ asks.length ≤ valid_ask_idx then s
    else
      let bid := bids.getD valid_bid_idx (0, 0)
      let ask := asks.getD valid_ask_idx (0, 0)
      let cached_mid_price_ := (bid.1 + ask.1) / 2
      let cached_spread_ := ask.1 - bid.1
      let volatility_ := cached_spread_ / cached_mid_price_
      let max_levels := min 5 (asks.length - valid_ask_idx)
      let fill := slippageLoop s.quantity_ asks max_levels valid_ask_idx 0 0
      let cumulative_qty := fill.1
      let weighted_price := fill.2
      let slippage_ :=
        if 0 < cumulative_qty then
          ((weighted_price / cumulative_qty) - cached_mid_price_) / cached_mid_price_ * 100
        else 0
      let fees_ := s.quantity_ * cached_mid_price_ * s.taker_fee_
      let sigma := volatility_ * cached_mid_price_
      let eta := 1 * sigma
      let market_impact_ := stdMax (eta * ops.pow s.quantity_ 1.5 / ops.sqrt 86400) 0.0001
      let net_cost_ := (slippage_ / 100 * s.quantity_ * cached_mid_price_) + fees_ + market_impact_
      let total_qty := bid.2 + ask.2
      let liquidity_ratio := if 0 < total_qty then bid.2 / total_qty else 0.5
      let raw_proportion := 1 / (1 + ops.exp (-5 * (liquidity_ratio - 0.5)))
      let maker_proportion_ :=
        if ops.isfinite s.maker_proportion_ then 0.9 * s.maker_proportion_ + 0.1 * raw_proportion
        else raw_proportion
      { s with
        cached_mid_price_ := cached_mid_price_
        cached_spread_ := cached_spread_
        volatility_ := volatility_
        slippage_ := slippage_
        fees_ := fees_
        market_impact_ := market_impact_
        net_cost_ := net_cost_
        maker_proportion_ := maker_proportion_ }

end Calculator

/-! ## Benchmark reporter and update pipeline -/

section Pipeline

variable {K : Type} [LinearOrderedField K]

/-- `std::accumulate(v.begin(), v.end(), 0.0)`. -/
def accumulate (v : List K) : K := v.foldl (fun acc x => acc + x) 0

/-- `TradeSimulator::report_benchmarks` (lines 355-366): the two averages are
written out, then the four latency buffers are cleared. -/
def report_benchmarks (s : TradeSimulator K) : TradeSimulator K :=
  let avg_json_parse := accumulate s.json_parse_latencies_ / (s.json_parse_latencies_.length : K)
  let avg_e2e := accumulate s.e2e_latencies_ / (s.e2e_latencies_.length : K)
  { s with
    benchmark_out := s.benchmark_out ++
      [{ update := s.update_count_, avg_json_parse := avg_json_parse, avg_e2e := avg_e2e }]
    json_parse_latencies_ := []
    data_proc_latencies_ := []
    ui_update_latencies_ := []
    e2e_latencies_ := [] }

/-- The divisors of the two averages of `report_benchmarks` (lines 356-357):
`json_parse_latencies_.size()` and `e2e_latencies_.size()`, converted to
`double`. The function divides by them without testing them. -/
def report_divisors (s : TradeSimulator K) : K × K :=
  ((s.json_parse_latencies_.length : K), (s.e2e_latencies_.length : K))

/-- The four readings of `high_resolution_clock::now()` taken by one call of
`on_message` (lines 162, 172, 180, 184), in milliseconds. -/
structure Clock (K : Type) where
  e2e_start : K
  json_parse_end : K
  data_proc_end : K
  calc_end : K

/-- The message guard of `on_message` (line 174). -/
def messageInvalid (data : JValue) : Bool :=
  !data.IsObject || !JObject.HasMember data.members "data" ||
  !(JObject.get data.members "data").IsArray || (JObject.get data.members "data").Empty

/-- `TradeSimulator::on_message` (lines 161-205). `data` is the document
`rapidjson::Document::Parse` produced from the payload. An exception raised
by `process_orderbook` is caught at line 202: the call ends with the state as
it was at that moment. `update_count_` is a 64-bit `size_t`. The result is
`none` when `data["data"][0]` is not an object: `HasMember` is then called
outside rapidjson's precondition. -/
def on_message (ops : MathOps K) (stod : String → Option K) (stol : String → Option Int)
    (s : TradeSimulator K) (data : JValue) (now : Clock K) : Option (TradeSimulator K) :=
  let s0 : TradeSimulator K := { s with logged_json_ := true }
  let json_parse_ms := now.json_parse_end - now.e2e_start
  if messageInvalid data then some s0
  else
    match (JObject.get data.members "data").idx 0 with
    | JValue.object record =>
      match process_orderbook stod stol s0.orderbook_ record with
      | Outcome.threw book => some { s0 with orderbook_ := book }
      | Outcome.returned book =>
        let data_proc_ms := now.data_proc_end - now.json_parse_end
        let s1 := calculate_outputs ops { s0 with orderbook_ := book }
        let calc_ms := now.calc_end - now.data_proc_end
        let s2 : TradeSimulator K :=
          { s1 with
            ui_queue_ := s1.ui_queue_ ++
              [{ slippage := s1.slippage_, fees := s1.fees_, market_impact := s1.market_impact_,
                 net_cost := s1.net_cost_, maker_proportion := s1.maker_proportion_,
                 volatility := s1.volatility_, latency_ms := calc_ms }] }
        let s3 : TradeSimulator K :=
          { s2 with
            json_parse_latencies_ := s2.json_parse_latencies_ ++ [json_parse_ms]
            data_proc_latencies_ := s2.data_proc_latencies_ ++ [data_proc_ms]
            e2e_latencies_ := s2.e2e_latencies_ ++ [now.calc_end - now.e2e_start]
            update_count_ := (s2.update_count_ + 1) % 2 ^ 64 }
        if s3.update_count_ % benchmark_interval_ = 0 then some (report_benchmarks s3)
        else some s3
    | _ => none

/-- A sequence of messages handled one after the other, each with its clock
readings. -/
def run (ops : MathOps K) (stod : String → Option K) (stol : String → Option Int) :
    TradeSimulator K → List (JValue × Clock K) → Option (TradeSimulator K)
  | s, [] => some s
  | s, m :: rest =>
    match on_message ops stod stol s m.1 m.2 with
    | some s1 => run ops stod stol s1 rest
    | none => none

/-- A message that `on_message` carries through to the queue and the latency
buffers: it passes the message guard, its record is an object, and no
conversion in `process_orderbook` raises. (Whether a conversion raises does
not depend on the book the call starts from.) -/
def reachesQueue (stod : String → Option K) (stol : String → Option Int) (data : JValue) : Bool :=
  !messageInvalid data &&
    match (JObject.get data.members "data").idx 0 with
    | JValue.object record =>
      !(process_orderbook stod stol { bids := [], asks := [], timestamp := 0 } record).isThrow
    | _ => false

end Pipeline

/-! ## The specification's wording of the calculator -/

section SpecWording

variable {K : Type} [LinearOrderedField K]

/-- Specification wording: a level is valid when its quantity is positive. -/
def validLevel (lvl : K × K) : Bool := decide (0 < lvl.2)

/-- Specification wording: the best level of a side is the first valid level,
if there is one. -/
def bestLevel (side : List (K × K)) : Option (K × K) := side.find? validLevel

/-- Specification wording: the quantity taken from one level when `remaining`
is left of the target: nothing once the target is filled, nothing from a
level with quantity `≤ 0`, otherwise the smaller of what remains and the
level's quantity. -/
def specFill (remaining : K) (lvl : K × K) : K :=
  if remaining ≤ 0 then 0 else if 0 < lvl.2 then min remaining lvl.2 else 0

/-- Specification wording: the quantities taken along a window of ask levels,
position by position, each from what the earlier positions left of `Q`. -/
def specFills : K → List (K × K) → List K
  | _, [] => []
  | remaining, lvl :: rest =>
    specFill remaining lvl :: specFills (remaining - specFill remaining lvl) rest

/-- Specification wording: the window of the slippage walk, the at most 5
consecutive ask positions that start at the first valid ask. -/
def specWindow (asks : List (K × K)) : List (K × K) :=
  (asks.dropWhile fun lvl => !validLevel lvl).take 5

/-- Specification wording: `Σ(fill)` over a window. -/
def fillQty (Q : K) (window : List (K × K)) : K := (specFills Q window).sum

/-- Specification wording: `Σ(fill·price)` over a window. -/
def fillCost (Q : K) (window : List (K × K)) : K :=
  (List.zipWith (fun fill lvl => fill * lvl.1) (specFills Q window) window).sum

/-- Specification wording: the total quantity filled. -/
def specFilled (Q : K) (asks : List (K × K)) : K := fillQty Q (specWindow asks)

/-- Specification wording: `Σ(fill·price)` of the walk. -/
def specCost (Q : K) (asks : List (K × K)) : K := fillCost Q (specWindow asks)

/-- Specification wording: `slippage_pct = (weighted_avg_price − mid) / mid × 100`
with `weighted_avg_price = Σ(fill·price)/Σ(fill)`, and `0` when nothing is
filled. -/
def specSlippage (Q mid : K) (asks : List (K × K)) : K :=
  if specFilled Q asks = 0 then 0
  else (specCost Q asks / specFilled Q asks - mid) / mid * 100

/-- Specification wording: a level is well formed when it is an array whose
first two fields are strings that both convert to numbers; its value is the
converted pair. -/
def specLevel (stod : String → Option K) : JValue → Option (K × K)
  | JValue.array (JValue.string p :: JValue.string q :: _) =>
    match stod p, stod q with
    | some price, some qty => some (price, qty)
    | _, _ => none
  | _ => none

/-- Specification wording: the well-formed levels of a side, in input order. -/
def specLevels (stod : String → Option K) (levels : List JValue) : List (K × K) :=
  levels.filterMap (specLevel stod)

/-- A run of `calculate_outputs` over a sequence of books: before each call
the stored book is replaced by the next one. -/
def calcRun (ops : MathOps K) : TradeSimulator K → List (Orderbook K) → TradeSimulator K
  | s, [] => s
  | s, book :: rest => calcRun ops (calculate_outputs ops { s with orderbook_ := book }) rest

end SpecWording

/-! ## Concrete inputs used in the examples -/

/-- The values of `std::stod` on the strings of the examples; `none` on
`"abc"`, where the library raises `std::invalid_argument`. No other string is
used. -/
def sampleStod (text : String) : Option ℚ :=
  if text = "100.0" then some 100
  else if text = "100.2" then some 100.2
  else if text = "100.5" then some 100.5
  else if text = "2.0" then some 2
  else if text = "1.0" then some 1
  else if text = "0.0" then some 0
  else none

/-- The values of `std::stol` on the strings of the examples. -/
def sampleStol (text : String) : Option Int :=
  if text = "1700000000000" then some 1700000000000 else none

/-- A stand-in for `<cmath>` over `ℚ`, to evaluate the calculator on concrete
books. The statements below hold for every `MathOps`; these are not the
library's values. -/
def sampleOps : MathOps ℚ where
  exp := fun x => if 0 ≤ x then 1 + x else 1 / (1 - x)
  pow := fun x _ => x
  sqrt := fun x => x
  isfinite := fun _ => true

/-- A book with one level on each side: bid `(100.0, 2.0)`, ask `(100.2, 1.0)`. -/
def sampleBook : Orderbook ℚ :=
  { bids := [(100, 2)], asks := [(100.2, 1)], timestamp := 5 }

/-- A record without `bids`. -/
def recordNoBids : JObject :=
  [("asks", JValue.array [JValue.array [JValue.string "100.2", JValue.string "1.0"]]),
   ("ts", JValue.string "1700000000000")]

/-- A record whose first bid level has a price that is no number. -/
def recordBadPrice : JObject :=
  [("bids", JValue.array [JValue.array [JValue.string "abc", JValue.string "1.0"],
                          JValue.array [JValue.string "100.0", JValue.string "2.0"]]),
   ("asks", JValue.array [JValue.array [JValue.string "100.2", JValue.string "1.0"]]),
   ("ts", JValue.string "1700000000000")]

/-- A record with one mis-shaped bid level (a single field) and one mis-typed
ask level (a number), next to well-formed ones. -/
def recordMixed : JObject :=
  [("bids", JValue.array [JValue.array [JValue.string "100.0"],
                          JValue.array [JValue.string "100.0", JValue.string "2.0"]]),
   ("asks", JValue.array [JValue.number "7",
                          JValue.array [JValue.string "100.2", JValue.string "1.0"]]),
   ("ts", JValue.string "1700000000000")]

/-- The state after construction with a given book and target quantity. -/
def sampleState (book : Orderbook ℚ) (quantity : ℚ) : TradeSimulator ℚ :=
  { TradeSimulator.initial ℚ 0 with orderbook_ := book, quantity_ := quantity }

/-- A book with an empty ask side. -/
def bookNoAsks : Orderbook ℚ :=
  { bids := [(100, 2)], asks := [], timestamp := 5 }

/-- A book whose first ask level has quantity `0`, followed by `(100.5, 2.0)`. -/
def bookTombstone (p : ℚ) : Orderbook ℚ :=
  { bids := [(100, 2)], asks := [(p, 0), (100.5, 2)], timestamp := 5 }

/-- A book whose ask side is not in ascending price order. -/
def bookUnsorted : Orderbook ℚ :=
  { bids := [(100, 1)], asks := [(101, 1), (100.5, 1)], timestamp := 5 }

/-- A crossed book: the best bid is above the best ask. -/
def bookCrossed : Orderbook ℚ :=
  { bids := [(101, 1)], asks := [(100, 1)], timestamp := 5 }

/-- A book with negative prices, asks ascending. -/
def bookNegative : Orderbook ℚ :=
  { bids := [(-101, 1)], asks := [(-100, 1), (-99, 1)], timestamp := 5 }

/-- A book with two ask levels in ascending price order. -/
def bookTwoAsks : Orderbook ℚ :=
  { bids := [(100, 2)], asks := [(100.2, 1), (100.4, 3)], timestamp := 5 }

/-- A record whose ask side is empty. -/
def recordNoAsks : JObject :=
  [("bids", JValue.array [JValue.array [JValue.string "100.0", JValue.string "2.0"]]),
   ("asks", JValue.array []),
   ("ts", JValue.string "1700000000000")]

/-- A record with one well-formed level on each side. -/
def recordGood : JObject :=
  [("bids", JValue.array [JValue.array [JValue.string "100.0", JValue.string "2.0"]]),
   ("asks", JValue.array [JValue.array [JValue.string "100.2", JValue.string "1.0"]]),
   ("ts", JValue.string "1700000000000")]

/-- The message `{"data": [record]}`. -/
def messageOf (record : JObject) : JValue :=
  JValue.object [("data", JValue.array [JValue.object record])]

/-- A message without a `data` member. -/
def messageNoData : JValue := JValue.object [("event", JValue.string "subscribe")]

/-- Clock readings of one call: start at `0`, parsed at `1`, book applied at
`3`, calculation done at `6` (milliseconds). -/
def sampleClock : Clock ℚ :=
  { e2e_start := 0, json_parse_end := 1, data_proc_end := 3, calc_end := 6 }

/-- A state one update before a benchmark report: 99 updates counted, with the
99 samples of a window in the parse and end-to-end buffers. -/
def stateBeforeReport : TradeSimulator ℚ :=
  { TradeSimulator.initial ℚ 0 with
    update_count_ := 99
    json_parse_latencies_ := List.replicate 99 1
    data_proc_latencies_ := List.replicate 99 2
    e2e_latencies_ := List.replicate 99 6 }

/-! ## Theorems -/

section OrderBookStore

variable {K : Type}

theorem levelLoop_append (stod : String → Option K) (levels : List JValue) (acc : List (K × K)) :
    levelLoop stod levels acc =
      match levelLoop stod levels [] with
      | Outcome.returned out => Outcome.returned (acc ++ out)
      | Outcome.threw out => Outcome.threw (acc ++ out) := by
  induction levels generalizing acc with
  | nil => simp [levelLoop]
  | cons bid rest ih =>
    unfold levelLoop
    split_ifs with hskip
    · exact ih acc
    · cases hp : stod (bid.idx 0).GetString <;> cases hq : stod (bid.idx 1).GetString <;> simp
      rename_i price qty
      rw [ih (acc ++ [(price, qty)]), ih [(price, qty)]]
      cases levelLoop stod rest [] <;> simp

theorem levelSkipped_eq_false_iff (bid : JValue) :
    levelSkipped bid = false ↔
      ∃ p q tl, bid = JValue.array (JValue.string p :: JValue.string q :: tl) := by
  constructor
  · intro h
    cases bid with
    | array elems =>
      match elems with
      | [] => simp [levelSkipped, JValue.IsArray, JValue.Size, JValue.GetArray] at h
      | [_] => simp [levelSkipped, JValue.IsArray, JValue.Size, JValue.GetArray] at h
      | x :: y :: tl =>
        cases x <;> cases y <;>
          simp [levelSkipped, JValue.IsArray, JValue.Size, JValue.GetArray, JValue.idx,
            JValue.IsString] at h ⊢
    | _ => simp [levelSkipped, JValue.IsArray] at h
  · rintro ⟨p, q, tl, rfl⟩
    simp [levelSkipped, JValue.IsArray, JValue.Size, JValue.GetArray, JValue.idx,
      JValue.IsString]

theorem specLevel_of_skipped (stod : String → Option K) (bid : JValue)
    (h : levelSkipped bid = true) : specLevel stod bid = none := by
  cases hs : specLevel stod bid with
  | none => rfl
  | some v =>
    exfalso
    have hne : levelSkipped bid ≠ false := by simp [h]
    apply hne
    rw [levelSkipped_eq_false_iff]
    unfold specLevel at hs
    split at hs
    · exact ⟨_, _, _, rfl⟩
    · exact absurd hs (by simp)

theorem levelLoop_eq_specLevels (stod : String → Option K) (levels : List JValue)
    (h : ∀ lvl ∈ levels, levelSkipped lvl = false → (specLevel stod lvl).isSome = true) :
    levelLoop stod levels [] = Outcome.returned (specLevels stod levels) := by
  induction levels with
  | nil => simp [levelLoop, specLevels]
  | cons bid rest ih =>
    have ih1 := ih (fun lvl hl => h lvl (List.mem_cons_of_mem _ hl))
    unfold levelLoop
    split_ifs with hskip
    · rw [ih1]
      simp [specLevels, List.filterMap_cons, specLevel_of_skipped stod bid hskip]
    · have hskip1 : levelSkipped bid = false := by simpa using hskip
      have hsome := h bid (List.mem_cons_self _ _) hskip1
      obtain ⟨p, q, tl, rfl⟩ := (levelSkipped_eq_false_iff bid).1 hskip1
      simp only [JValue.idx, JValue.GetArray, List.getD_cons_zero, List.getD_cons_succ,
        JValue.GetString]
      simp only [specLevel] at hsome
      cases hp : stod p <;> cases hq : stod q <;> simp [hp, hq] at hsome ⊢
      rename_i price qty
      rw [levelLoop_append, ih1]
      simp [specLevels, List.filterMap_cons, specLevel, hp, hq]

theorem process_orderbook_of_invalid (stod : String → Option K) (stol : String → Option Int)
    (orderbook_ : Orderbook K) (data : JObject) (h : recordInvalid data = true) :
    process_orderbook stod stol orderbook_ data =
      Outcome.returned { bids := [], asks := [], timestamp := orderbook_.timestamp } := by
  simp [process_orderbook, h]

/-- C1 (counterexample). A record without `bids` is rejected, but the stored
book is not what it was before the call: the bid side `[(100, 2)]` has become
empty. -/
theorem process_orderbook_reject_changes_book :
    recordNoBids.HasMember "bids" = false ∧
    ¬ ((process_orderbook sampleStod sampleStol sampleBook recordNoBids).state.bids
          = sampleBook.bids ∧
       (process_orderbook sampleStod sampleStol sampleBook recordNoBids).state.asks
          = sampleBook.asks ∧
       (process_orderbook sampleStod sampleStol sampleBook recordNoBids).state.timestamp
          = sampleBook.timestamp) := by
  refine ⟨by decide, ?_⟩
  have h : recordInvalid recordNoBids = true := by decide
  simp [process_orderbook, h, Outcome.state, sampleBook]

/-- C1 (amended). For every prior book and every record in which `bids` or
`asks` is missing or not an array, or `ts` is missing or not a string,
`process_orderbook` returns without raising, leaves the time stamp as it was
and leaves both sides of the stored book empty. -/
theorem process_orderbook_reject_clears_sides (stod : String → Option K)
    (stol : String → Option Int) (orderbook_ : Orderbook K) (data : JObject)
    (h : data.HasMember "bids" = false ∨ (data.get "bids").IsArray = false ∨
         data.HasMember "asks" = false ∨ (data.get "asks").IsArray = false ∨
         data.HasMember "ts" = false ∨ (data.get "ts").IsString = false) :
    process_orderbook stod stol orderbook_ data =
      Outcome.returned { bids := [], asks := [], timestamp := orderbook_.timestamp } := by
  have hinv : recordInvalid data = true := by
    unfold recordInvalid
    rcases h with h | h | h | h | h | h <;> simp [h]
  exact process_orderbook_of_invalid stod stol orderbook_ data hinv

theorem process_orderbook_reject_clears_sides_witness :
    (recordNoBids.HasMember "bids" = false ∨ (recordNoBids.get "bids").IsArray = false ∨
      recordNoBids.HasMember "asks" = false ∨ (recordNoBids.get "asks").IsArray = false ∨
      recordNoBids.HasMember "ts" = false ∨ (recordNoBids.get "ts").IsString = false) ∧
    process_orderbook sampleStod sampleStol sampleBook recordNoBids =
      Outcome.returned { bids := [], asks := [], timestamp := sampleBook.timestamp } :=
  ⟨Or.inl (by decide),
   process_orderbook_reject_clears_sides sampleStod sampleStol sampleBook recordNoBids
     (Or.inl (by decide))⟩

/-- C8 (counterexample). The record's three fields are present and well
typed and its first bid level has the price `"abc"`. The level is not dropped:
the conversion raises, the stored bids are not the well-formed levels of the
update (`[(100, 2)]`), and the time stamp is not the update's. -/
theorem process_orderbook_bad_number_raises :
    recordInvalid recordBadPrice = false ∧
    specLevels sampleStod (recordBadPrice.get "bids").GetArray = [(100, 2)] ∧
    (process_orderbook sampleStod sampleStol sampleBook recordBadPrice).isThrow = true ∧
    (process_orderbook sampleStod sampleStol sampleBook recordBadPrice).state.bids ≠
      specLevels sampleStod (recordBadPrice.get "bids").GetArray ∧
    (process_orderbook sampleStod sampleStol sampleBook recordBadPrice).state.timestamp ≠
      1700000000000 := by
  have h : recordInvalid recordBadPrice = false := by decide
  have hb : (recordBadPrice.get "bids").GetArray =
      [JValue.array [JValue.string "abc", JValue.string "1.0"],
       JValue.array [JValue.string "100.0", JValue.string "2.0"]] := rfl
  refine ⟨h, ?_, ?_, ?_, ?_⟩
  · simp [hb, specLevels, specLevel, sampleStod]
  · simp [process_orderbook, h, hb, levelLoop, levelSkipped, JValue.IsArray, JValue.Size,
      JValue.GetArray, JValue.idx, JValue.IsString, JValue.GetString, sampleStod,
      Outcome.isThrow]
  · rw [hb]
    simp [process_orderbook, h, hb, levelLoop, levelSkipped, JValue.IsArray, JValue.Size,
      JValue.GetArray, JValue.idx, JValue.IsString, JValue.GetString, sampleStod,
      Outcome.state, specLevels, specLevel]
  · simp [process_orderbook, h, hb, levelLoop, levelSkipped, JValue.IsArray, JValue.Size,
      JValue.GetArray, JValue.idx, JValue.IsString, JValue.GetString, sampleStod,
      Outcome.state, sampleBook]

/-- C8 (amended). For every record whose `bids`, `asks` and `ts` fields are
present and well typed, in which every level that is an array with two
leading string fields has a price and a quantity that `std::stod` converts,
and whose `ts` string `std::stol` converts: `process_orderbook` returns, the
stored bids (resp. asks) are exactly the well-formed levels of the update's
bids (resp. asks) in input order, every level that is not an array, has fewer
than 2 fields or a non-string field among its first two being dropped, and
the time stamp is the update's. -/
theorem process_orderbook_keeps_well_formed_levels (stod : String → Option K)
    (stol : String → Option Int) (orderbook_ : Orderbook K) (data : JObject) (ts : Int)
    (hvalid : recordInvalid data = false)
    (hbids : ∀ lvl ∈ (data.get "bids").GetArray,
      levelSkipped lvl = false → (specLevel stod lvl).isSome = true)
    (hasks : ∀ lvl ∈ (data.get "asks").GetArray,
      levelSkipped lvl = false → (specLevel stod lvl).isSome = true)
    (hts : stol (data.get "ts").GetString = some ts) :
    process_orderbook stod stol orderbook_ data =
      Outcome.returned
        { bids := specLevels stod (data.get "bids").GetArray
          asks := specLevels stod (data.get "asks").GetArray
          timestamp := ts } := by
  simp [process_orderbook, hvalid, levelLoop_eq_specLevels stod _ hbids,
    levelLoop_eq_specLevels stod _ hasks, hts]

theorem process_orderbook_keeps_well_formed_levels_witness :
    recordInvalid recordMixed = false ∧
    (∀ lvl ∈ (recordMixed.get "bids").GetArray,
      levelSkipped lvl = false → (specLevel sampleStod lvl).isSome = true) ∧
    (∀ lvl ∈ (recordMixed.get "asks").GetArray,
      levelSkipped lvl = false → (specLevel sampleStod lvl).isSome = true) ∧
    sampleStol (recordMixed.get "ts").GetString = some 1700000000000 ∧
    process_orderbook sampleStod sampleStol sampleBook recordMixed =
      Outcome.returned
        { bids := specLevels sampleStod (recordMixed.get "bids").GetArray
          asks := specLevels sampleStod (recordMixed.get "asks").GetArray
          timestamp := 1700000000000 } ∧
    specLevels sampleStod (recordMixed.get "bids").GetArray = [(100, 2)] ∧
    specLevels sampleStod (recordMixed.get "asks").GetArray = [(100.2, 1)] := by
  have hb : (recordMixed.get "bids").GetArray =
      [JValue.array [JValue.string "100.0"],
       JValue.array [JValue.string "100.0", JValue.string "2.0"]] := rfl
  have ha : (recordMixed.get "asks").GetArray =
      [JValue.number "7", JValue.array [JValue.string "100.2", JValue.string "1.0"]] := rfl
  have ht : (recordMixed.get "ts").GetString = "1700000000000" := rfl
  have h1 : recordInvalid recordMixed = false := by decide
  have h2 : ∀ lvl ∈ (recordMixed.get "bids").GetArray,
      levelSkipped lvl = false → (specLevel sampleStod lvl).isSome = true := by
    rw [hb]
    simp [levelSkipped, JValue.IsArray, JValue.Size, JValue.GetArray, JValue.idx,
      JValue.IsString, specLevel, sampleStod]
  have h3 : ∀ lvl ∈ (recordMixed.get "asks").GetArray,
      levelSkipped lvl = false → (specLevel sampleStod lvl).isSome = true := by
    rw [ha]
    simp [levelSkipped, JValue.IsArray, JValue.Size, JValue.GetArray, JValue.idx,
      JValue.IsString, specLevel, sampleStod]
  have h4 : sampleStol (recordMixed.get "ts").GetString = some 1700000000000 := by
    rw [ht]; simp [sampleStol]
  refine ⟨h1, h2, h3, h4,
    process_orderbook_keeps_well_formed_levels sampleStod sampleStol sampleBook recordMixed
      1700000000000 h1 h2 h3 h4, ?_, ?_⟩
  · simp [hb, specLevels, specLevel, sampleStod]
  · simp [ha, specLevels, specLevel, sampleStod]

/-- Whether a conversion in `process_orderbook` raises does not depend on the
book the call starts from. -/
theorem process_orderbook_isThrow_indep (stod : String → Option K) (stol : String → Option Int)
    (book1 book2 : Orderbook K) (data : JObject) :
    (process_orderbook stod stol book1 data).isThrow =
      (process_orderbook stod stol book2 data).isThrow := by
  unfold process_orderbook
  simp only
  by_cases hinv : recordInvalid data = true
  · simp [hinv, Outcome.isThrow]
  · simp only [hinv, if_false]
    cases levelLoop stod (JObject.get data "bids").GetArray [] with
    | threw bids => rfl
    | returned bids =>
      cases levelLoop stod (JObject.get data "asks").GetArray [] with
      | threw asks => rfl
      | returned asks =>
        cases stol (JObject.get data "ts").GetString <;> rfl

theorem reachesQueue_spec (stod : String → Option K) (stol : String → Option Int)
    (data : JValue) (h : reachesQueue stod stol data = true) (book0 : Orderbook K) :
    messageInvalid data = false ∧
    ∃ record book, (JObject.get data.members "data").idx 0 = JValue.object record ∧
      process_orderbook stod stol book0 record = Outcome.returned book := by
  unfold reachesQueue at h
  rw [Bool.and_eq_true] at h
  obtain ⟨hmsg, hrest⟩ := h
  refine ⟨by simpa using hmsg, ?_⟩
  cases hfirst : (JObject.get data.members "data").idx 0 with
  | object record =>
    rw [hfirst] at hrest
    simp only at hrest
    have hno : (process_orderbook stod stol book0 record).isThrow = false := by
      rw [process_orderbook_isThrow_indep stod stol book0
        { bids := [], asks := [], timestamp := 0 } record]
      simpa using hrest
    cases hp : process_orderbook stod stol book0 record with
    | returned book => exact ⟨record, book, rfl, hp⟩
    | threw book => rw [hp] at hno; simp [Outcome.isThrow] at hno
  | null => rw [hfirst] at hrest; simp at hrest
  | bool _ => rw [hfirst] at hrest; simp at hrest
  | number _ => rw [hfirst] at hrest; simp at hrest
  | string _ => rw [hfirst] at hrest; simp at hrest
  | array _ => rw [hfirst] at hrest; simp at hrest

end OrderBookStore

section CalculatorFacts

variable {K : Type} [LinearOrderedField K]

theorem stdMin_eq_min (a b : K) : stdMin a b = min a b := by
  unfold stdMin
  split_ifs with h
  · exact (min_eq_right h.le).symm
  · exact (min_eq_left (not_lt.1 h)).symm

theorem stdMax_eq_max (a b : K) : stdMax a b = max a b := by
  unfold stdMax
  split_ifs with h
  · exact (max_eq_right h.le).symm
  · exact (max_eq_left (not_lt.1 h)).symm

theorem firstValidIdx_le (l : List (K × K)) : firstValidIdx l ≤ l.length := by
  induction l with
  | nil => simp [firstValidIdx]
  | cons lvl rest ih =>
    unfold firstValidIdx
    split_ifs <;> simp [ih]

theorem firstValidIdx_of_no_valid (l : List (K × K)) (h : ¬ ∃ lvl ∈ l, 0 < lvl.2) :
    l.length ≤ firstValidIdx l := by
  induction l with
  | nil => simp [firstValidIdx]
  | cons lvl rest ih =>
    have h1 : lvl.2 ≤ 0 := not_lt.1 fun hpos => h ⟨lvl, List.mem_cons_self _ _, hpos⟩
    have h2 : ¬ ∃ x ∈ rest, 0 < x.2 := fun ⟨x, hx, hpos⟩ =>
      h ⟨x, List.mem_cons_of_mem _ hx, hpos⟩
    simp [firstValidIdx, h1, ih h2]

theorem bestLevel_firstValidIdx (l : List (K × K)) (b : K × K) (h : bestLevel l = some b) :
    firstValidIdx l < l.length ∧ l.getD (firstValidIdx l) (0, 0) = b := by
  induction l with
  | nil => simp [bestLevel] at h
  | cons lvl rest ih =>
    unfold bestLevel at h
    rw [List.find?_cons] at h
    by_cases hv : lvl.2 ≤ 0
    · have hval : validLevel lvl = false := by simp [validLevel, hv]
      rw [hval] at h
      have hrest := ih h
      have e : firstValidIdx (lvl :: rest) = firstValidIdx rest + 1 := by
        simp [firstValidIdx, hv]
      rw [e, List.getD_cons_succ]
      exact ⟨by simpa using hrest.1, hrest.2⟩
    · have hval : validLevel lvl = true := by simpa [validLevel] using hv
      rw [hval] at h
      simp only [Option.some.injEq] at h
      have e : firstValidIdx (lvl :: rest) = 0 := by simp [firstValidIdx, hv]
      rw [e, List.getD_cons_zero]
      exact ⟨by simp, h⟩

theorem bestLevel_valid (l : List (K × K)) (b : K × K) (h : bestLevel l = some b) :
    0 < b.2 ∧ b ∈ l := by
  unfold bestLevel at h
  have h1 := List.find?_some h
  exact ⟨by simpa [validLevel] using h1, List.mem_of_find?_eq_some h⟩

theorem before_firstValidIdx (l : List (K × K)) (j : Nat) (h : j < firstValidIdx l) :
    (l.getD j (0, 0)).2 ≤ 0 := by
  induction l generalizing j with
  | nil => simp [firstValidIdx] at h
  | cons lvl rest ih =>
    unfold firstValidIdx at h
    split_ifs at h with hv
    · cases j with
      | zero => simpa using hv
      | succ j => simpa using ih j (by omega)
    · omega

theorem drop_firstValidIdx (l : List (K × K)) :
    l.drop (firstValidIdx l) = l.dropWhile fun lvl => !validLevel lvl := by
  induction l with
  | nil => simp [firstValidIdx]
  | cons lvl rest ih =>
    by_cases hv : lvl.2 ≤ 0
    · have hval : validLevel lvl = false := by simp [validLevel, hv]
      simp [firstValidIdx, hv, List.dropWhile_cons, hval, ih]
    · have hval : validLevel lvl = true := by simpa [validLevel] using hv
      simp [firstValidIdx, hv, List.dropWhile_cons, hval]

theorem specFills_of_nonpos (Q : K) (l : List (K × K)) (h : Q ≤ 0) :
    (specFills Q l).sum = 0 ∧
    (List.zipWith (fun fill lvl => fill * lvl.1) (specFills Q l) l).sum = 0 := by
  induction l with
  | nil => simp [specFills]
  | cons lvl rest ih => simp [specFills, specFill, h, ih.1, ih.2]

/-- The loop of lines 271-277 in closed form: from position `i` with `n`
iterations left it adds to the two accumulators the fills of the window
`(asks.drop i).take n` for the target that remains. -/
theorem slippageLoop_eq_specFills (Q : K) (asks : List (K × K)) (n i : Nat) (c w : K) :
    slippageLoop Q asks n i c w =
      (c + (specFills (Q - c) ((asks.drop i).take n)).sum,
       w + (List.zipWith (fun fill lvl => fill * lvl.1)
              (specFills (Q - c) ((asks.drop i).take n)) ((asks.drop i).take n)).sum) := by
  induction n generalizing i c w with
  | zero => simp [slippageLoop, specFills]
  | succ n ih =>
    unfold slippageLoop
    by_cases hlen : asks.length ≤ i
    · simp [hlen, List.drop_eq_nil_of_le hlen, specFills]
    · have hi : i < asks.length := not_le.1 hlen
      have hdrop : asks.drop i = asks.getD i (0, 0) :: asks.drop (i + 1) := by
        rw [List.getD_eq_getElem _ _ hi]
        exact List.drop_eq_getElem_cons hi
      by_cases hQ : Q ≤ c
      · have hz := specFills_of_nonpos (Q - c) ((asks.drop i).take (n + 1)) (sub_nonpos.2 hQ)
        simp [hQ, hz.1, hz.2]
      · have hrem : ¬ (Q - c ≤ 0) := by simpa using hQ
        rw [if_neg (by simp [hQ, hlen])]
        rw [hdrop, List.take_succ_cons]
        generalize asks.getD i (0, 0) = x
        by_cases hq : x.2 ≤ 0
        · rw [if_pos hq, ih]
          simp only [specFills, specFill, hrem, if_false, not_lt.2 hq, List.sum_cons,
            List.zipWith_cons_cons, zero_add, zero_mul, sub_zero]
        · rw [if_neg hq, ih]
          simp only [specFills, specFill, hrem, if_false, not_le.1 hq, if_true, stdMin_eq_min,
            List.sum_cons, List.zipWith_cons_cons]
          rw [show Q - (c + min (Q - c) x.2) = Q - c - min (Q - c) x.2 by ring]
          refine Prod.ext ?_ ?_
          · simp only []
            ring
          · simp only []
            ring

theorem specFill_nonneg (Q : K) (lvl : K × K) : 0 ≤ specFill Q lvl := by
  unfold specFill
  split_ifs with h1 h2
  · exact le_refl 0
  · exact le_min (not_le.1 h1).le h2.le
  · exact le_refl 0

theorem specFills_sum_nonneg (Q : K) (l : List (K × K)) : 0 ≤ (specFills Q l).sum := by
  induction l generalizing Q with
  | nil => simp [specFills]
  | cons lvl rest ih =>
    simp only [specFills, List.sum_cons]
    exact add_nonneg (specFill_nonneg Q lvl) (ih _)

theorem window_eq_specWindow (asks : List (K × K)) :
    (asks.drop (firstValidIdx asks)).take (min 5 (asks.length - firstValidIdx asks)) =
      specWindow asks := by
  unfold specWindow
  rw [← drop_firstValidIdx, List.take_eq_take]
  simp

/-- The slippage assignment of lines 268-282 in the specification's wording. -/
theorem slippage_eq_specSlippage (Q mid : K) (asks : List (K × K)) :
    (if 0 < (slippageLoop Q asks (min 5 (asks.length - firstValidIdx asks))
              (firstValidIdx asks) 0 0).1 then
        ((slippageLoop Q asks (min 5 (asks.length - firstValidIdx asks))
              (firstValidIdx asks) 0 0).2 /
          (slippageLoop Q asks (min 5 (asks.length - firstValidIdx asks))
              (firstValidIdx asks) 0 0).1 - mid) / mid * 100
      else 0) = specSlippage Q mid asks := by
  rw [slippageLoop_eq_specFills, window_eq_specWindow]
  simp only [sub_zero, zero_add]
  unfold specSlippage specFilled specCost fillQty fillCost
  have hnn := specFills_sum_nonneg Q (specWindow asks)
  by_cases hz : (specFills Q (specWindow asks)).sum = 0
  · simp [hz]
  · rw [if_neg hz, if_pos (lt_of_le_of_ne hnn (Ne.symm hz))]

/-- The state `calculate_outputs` leaves behind on a book with best levels
`b` and `a`. -/
theorem calculate_outputs_of_best (ops : MathOps K) (s : TradeSimulator K) (b a : K × K)
    (hb : bestLevel s.orderbook_.bids = some b) (ha : bestLevel s.orderbook_.asks = some a) :
    calculate_outputs ops s =
      { s with
        cached_mid_price_ := (b.1 + a.1) / 2
        cached_spread_ := a.1 - b.1
        volatility_ := (a.1 - b.1) / ((b.1 + a.1) / 2)
        slippage_ := specSlippage s.quantity_ ((b.1 + a.1) / 2) s.orderbook_.asks
        fees_ := s.quantity_ * ((b.1 + a.1) / 2) * s.taker_fee_
        market_impact_ :=
          stdMax (1 * ((a.1 - b.1) / ((b.1 + a.1) / 2) * ((b.1 + a.1) / 2)) *
            ops.pow s.quantity_ 1.5 / ops.sqrt 86400) 0.0001
        net_cost_ :=
          specSlippage s.quantity_ ((b.1 + a.1) / 2) s.orderbook_.asks / 100 * s.quantity_ *
              ((b.1 + a.1) / 2) +
            s.quantity_ * ((b.1 + a.1) / 2) * s.taker_fee_ +
            stdMax (1 * ((a.1 - b.1) / ((b.1 + a.1) / 2) * ((b.1 + a.1) / 2)) *
              ops.pow s.quantity_ 1.5 / ops.sqrt 86400) 0.0001
        maker_proportion_ :=
          if ops.isfinite s.maker_proportion_ then
            0.9 * s.maker_proportion_ +
              0.1 * (1 / (1 + ops.exp (-5 * ((if 0 < b.2 + a.2 then b.2 / (b.2 + a.2) else 0.5) - 0.5))))
          else 1 / (1 + ops.exp (-5 * ((if 0 < b.2 + a.2 then b.2 / (b.2 + a.2) else 0.5) - 0.5))) } := by
  have hbi := bestLevel_firstValidIdx _ _ hb
  have hai := bestLevel_firstValidIdx _ _ ha
  have hbne : s.orderbook_.bids.isEmpty = false := by
    cases hl : s.orderbook_.bids with
    | nil => rw [hl] at hb; simp [bestLevel] at hb
    | cons _ _ => rfl
  have hane : s.orderbook_.asks.isEmpty = false := by
    cases hl : s.orderbook_.asks with
    | nil => rw [hl] at ha; simp [bestLevel] at ha
    | cons _ _ => rfl
  unfold calculate_outputs
  simp only [hbne, hane, Bool.or_self, Bool.false_eq_true, if_false]
  rw [if_neg (not_or.2 ⟨not_le.2 hbi.1, not_le.2 hai.1⟩)]
  simp only [hbi.2, hai.2, slippage_eq_specSlippage]

theorem bestLevel_of_exists (l : List (K × K)) (h : ∃ lvl ∈ l, 0 < lvl.2) :
    ∃ b, bestLevel l = some b := by
  obtain ⟨lvl, hmem, hpos⟩ := h
  cases hfind : bestLevel l with
  | some b => exact ⟨b, rfl⟩
  | none =>
    exfalso
    unfold bestLevel at hfind
    rw [List.find?_eq_none] at hfind
    exact hfind lvl hmem (by simpa [validLevel] using hpos)

theorem calculate_outputs_of_no_valid (ops : MathOps K) (s : TradeSimulator K)
    (h : (¬ ∃ lvl ∈ s.orderbook_.bids, 0 < lvl.2) ∨ (¬ ∃ lvl ∈ s.orderbook_.asks, 0 < lvl.2)) :
    calculate_outputs ops s = s := by
  have h2 : s.orderbook_.bids.length ≤ firstValidIdx s.orderbook_.bids ∨
      s.orderbook_.asks.length ≤ firstValidIdx s.orderbook_.asks := by
    rcases h with h | h
    · exact Or.inl (firstValidIdx_of_no_valid _ h)
    · exact Or.inr (firstValidIdx_of_no_valid _ h)
  unfold calculate_outputs
  simp only [if_pos h2, ite_self]

/-- C2. On a book in which the bid side or the ask side has no level with
quantity `> 0` (an empty side included), `calculate_outputs` returns the state
it was given: maker proportion, slippage, fees, market impact, net cost,
volatility, cached mid price and cached spread keep their values. -/
theorem calculate_outputs_noop_without_valid_level (ops : MathOps K) (s : TradeSimulator K)
    (h : (¬ ∃ lvl ∈ s.orderbook_.bids, 0 < lvl.2) ∨ (¬ ∃ lvl ∈ s.orderbook_.asks, 0 < lvl.2)) :
    calculate_outputs ops s = s :=
  calculate_outputs_of_no_valid ops s h

theorem calculate_outputs_noop_without_valid_level_witness :
    ((¬ ∃ lvl ∈ (sampleState bookNoAsks 0.5).orderbook_.bids, 0 < lvl.2) ∨
      (¬ ∃ lvl ∈ (sampleState bookNoAsks 0.5).orderbook_.asks, 0 < lvl.2)) ∧
    calculate_outputs sampleOps (sampleState bookNoAsks 0.5) = sampleState bookNoAsks 0.5 :=
  ⟨Or.inr (by simp [sampleState, bookNoAsks]),
   calculate_outputs_noop_without_valid_level sampleOps (sampleState bookNoAsks 0.5)
     (Or.inr (by simp [sampleState, bookNoAsks]))⟩

/-- C3. On a book with a valid level on both sides, with best levels `b` and
`a`, the slippage `calculate_outputs` stores is
`(weighted_avg_price − mid) / mid × 100` for `mid = (b.price + a.price) / 2`,
the mid price it caches, where the fill walks the at most 5 consecutive ask
positions from the first valid ask, takes `min (remaining Q) quantity` from a
level with quantity `> 0` and nothing from a level with quantity `≤ 0`, stops
once `Q` is filled, `weighted_avg_price = Σ(fill·price)/Σ(fill)`, and the
slippage is `0` when the total fill is `0`. -/
theorem calculate_outputs_slippage (ops : MathOps K) (s : TradeSimulator K) (b a : K × K)
    (hb : bestLevel s.orderbook_.bids = some b) (ha : bestLevel s.orderbook_.asks = some a) :
    (calculate_outputs ops s).cached_mid_price_ = (b.1 + a.1) / 2 ∧
    (calculate_outputs ops s).slippage_ =
      specSlippage s.quantity_ ((b.1 + a.1) / 2) s.orderbook_.asks := by
  rw [calculate_outputs_of_best ops s b a hb ha]
  exact ⟨rfl, rfl⟩

theorem calculate_outputs_slippage_witness :
    bestLevel (sampleState sampleBook 0.5).orderbook_.bids = some (100, 2) ∧
    bestLevel (sampleState sampleBook 0.5).orderbook_.asks = some (100.2, 1) ∧
    ((calculate_outputs sampleOps (sampleState sampleBook 0.5)).cached_mid_price_ =
        ((100 : ℚ) + 100.2) / 2 ∧
      (calculate_outputs sampleOps (sampleState sampleBook 0.5)).slippage_ =
        specSlippage (sampleState sampleBook 0.5).quantity_ (((100 : ℚ) + 100.2) / 2)
          (sampleState sampleBook 0.5).orderbook_.asks) ∧
    (calculate_outputs sampleOps (sampleState sampleBook 0.5)).cached_mid_price_ = 100.1 ∧
    (calculate_outputs sampleOps (sampleState sampleBook 0.5)).slippage_ =
      (100.2 - 100.1) / 100.1 * 100 := by
  have hb : bestLevel (sampleState sampleBook 0.5).orderbook_.bids = some (100, 2) := by
    simp [sampleState, sampleBook, bestLevel, validLevel]
  have ha : bestLevel (sampleState sampleBook 0.5).orderbook_.asks = some (100.2, 1) := by
    simp [sampleState, sampleBook, bestLevel, validLevel]
  have key := calculate_outputs_slippage sampleOps (sampleState sampleBook 0.5) _ _ hb ha
  refine ⟨hb, ha, key, ?_, ?_⟩
  · rw [key.1]; norm_num
  · rw [key.2]
    simp [specSlippage, specFilled, specCost, fillQty, fillCost, specWindow, specFills,
      specFill, sampleState, sampleBook, validLevel]
    norm_num

/-- C4. On a book with at least one level of quantity `> 0` on each side, the
best bid and best ask `calculate_outputs` uses are the levels at the lowest
index whose quantity is `> 0` (every level before them has quantity `≤ 0`),
and the call stores `mid = (best_bid.price + best_ask.price) / 2`,
`spread = best_ask.price − best_bid.price` and `volatility = spread / mid`. -/
theorem calculate_outputs_best_levels (ops : MathOps K) (s : TradeSimulator K)
    (hbid : ∃ lvl ∈ s.orderbook_.bids, 0 < lvl.2)
    (hask : ∃ lvl ∈ s.orderbook_.asks, 0 < lvl.2) :
    ∃ i j b a,
      i < s.orderbook_.bids.length ∧ s.orderbook_.bids.getD i (0, 0) = b ∧ 0 < b.2 ∧
      (∀ k, k < i → (s.orderbook_.bids.getD k (0, 0)).2 ≤ 0) ∧
      j < s.orderbook_.asks.length ∧ s.orderbook_.asks.getD j (0, 0) = a ∧ 0 < a.2 ∧
      (∀ k, k < j → (s.orderbook_.asks.getD k (0, 0)).2 ≤ 0) ∧
      bestLevel s.orderbook_.bids = some b ∧ bestLevel s.orderbook_.asks = some a ∧
      (calculate_outputs ops s).cached_mid_price_ = (b.1 + a.1) / 2 ∧
      (calculate_outputs ops s).cached_spread_ = a.1 - b.1 ∧
      (calculate_outputs ops s).volatility_ =
        (calculate_outputs ops s).cached_spread_ / (calculate_outputs ops s).cached_mid_price_ := by
  obtain ⟨b, hb⟩ := bestLevel_of_exists _ hbid
  obtain ⟨a, ha⟩ := bestLevel_of_exists _ hask
  have hbi := bestLevel_firstValidIdx _ _ hb
  have hai := bestLevel_firstValidIdx _ _ ha
  refine ⟨firstValidIdx s.orderbook_.bids, firstValidIdx s.orderbook_.asks, b, a,
    hbi.1, hbi.2, (bestLevel_valid _ _ hb).1, fun k hk => before_firstValidIdx _ k hk,
    hai.1, hai.2, (bestLevel_valid _ _ ha).1, fun k hk => before_firstValidIdx _ k hk,
    hb, ha, ?_⟩
  rw [calculate_outputs_of_best ops s b a hb ha]
  exact ⟨rfl, rfl, rfl⟩

theorem calculate_outputs_best_levels_witness :
    (∃ lvl ∈ (sampleState (bookTombstone 99) 0.5).orderbook_.bids, 0 < lvl.2) ∧
    (∃ lvl ∈ (sampleState (bookTombstone 99) 0.5).orderbook_.asks, 0 < lvl.2) ∧
    (∃ i j b a,
      i < (sampleState (bookTombstone 99) 0.5).orderbook_.bids.length ∧
      (sampleState (bookTombstone 99) 0.5).orderbook_.bids.getD i (0, 0) = b ∧ 0 < b.2 ∧
      (∀ k, k < i → ((sampleState (bookTombstone 99) 0.5).orderbook_.bids.getD k (0, 0)).2 ≤ 0) ∧
      j < (sampleState (bookTombstone 99) 0.5).orderbook_.asks.length ∧
      (sampleState (bookTombstone 99) 0.5).orderbook_.asks.getD j (0, 0) = a ∧ 0 < a.2 ∧
      (∀ k, k < j → ((sampleState (bookTombstone 99) 0.5).orderbook_.asks.getD k (0, 0)).2 ≤ 0) ∧
      bestLevel (sampleState (bookTombstone 99) 0.5).orderbook_.bids = some b ∧
      bestLevel (sampleState (bookTombstone 99) 0.5).orderbook_.asks = some a ∧
      (calculate_outputs sampleOps (sampleState (bookTombstone 99) 0.5)).cached_mid_price_ =
        (b.1 + a.1) / 2 ∧
      (calculate_outputs sampleOps (sampleState (bookTombstone 99) 0.5)).cached_spread_ =
        a.1 - b.1 ∧
      (calculate_outputs sampleOps (sampleState (bookTombstone 99) 0.5)).volatility_ =
        (calculate_outputs sampleOps (sampleState (bookTombstone 99) 0.5)).cached_spread_ /
          (calculate_outputs sampleOps (sampleState (bookTombstone 99) 0.5)).cached_mid_price_) ∧
    (∀ p : ℚ, bestLevel (bookTombstone p).asks = some (100.5, 2) ∧
      (bookTombstone p).asks.getD (firstValidIdx (bookTombstone p).asks) (0, 0) = (100.5, 2)) := by
  have h1 : ∃ lvl ∈ (sampleState (bookTombstone 99) 0.5).orderbook_.bids, 0 < lvl.2 :=
    ⟨(100, 2), by simp [sampleState, bookTombstone], by norm_num⟩
  have h2 : ∃ lvl ∈ (sampleState (bookTombstone 99) 0.5).orderbook_.asks, 0 < lvl.2 :=
    ⟨(100.5, 2), by simp [sampleState, bookTombstone], by norm_num⟩
  refine ⟨h1, h2,
    calculate_outputs_best_levels sampleOps (sampleState (bookTombstone 99) 0.5) h1 h2, ?_⟩
  intro p
  have hp : bestLevel (bookTombstone p).asks = some (100.5, 2) := by
    simp [bookTombstone, bestLevel, validLevel]
  exact ⟨hp, (bestLevel_firstValidIdx _ _ hp).2⟩

/-- C5. On a book with a valid level on each side and non-zero mid,
`calculate_outputs` stores `net_cost = slippage_pct/100 × Q × mid + fees_usd +
impact`, with `fees_usd = Q × mid × taker_fee_rate`, which does not change
with the maker fee or the maker proportion of the state, and
`impact = max(sigma × Q^1.5 / sqrt(86400), 0.0001)` for
`sigma = volatility × mid`, which equals the spread. -/
theorem calculate_outputs_net_cost (ops : MathOps K) (s : TradeSimulator K) (b a : K × K)
    (hb : bestLevel s.orderbook_.bids = some b) (ha : bestLevel s.orderbook_.asks = some a)
    (hmid : (b.1 + a.1) / 2 ≠ 0) :
    (calculate_outputs ops s).cached_mid_price_ = (b.1 + a.1) / 2 ∧
    (calculate_outputs ops s).net_cost_ =
      (calculate_outputs ops s).slippage_ / 100 * s.quantity_ *
          (calculate_outputs ops s).cached_mid_price_ +
        (calculate_outputs ops s).fees_ + (calculate_outputs ops s).market_impact_ ∧
    (calculate_outputs ops s).fees_ =
      s.quantity_ * (calculate_outputs ops s).cached_mid_price_ * s.taker_fee_ ∧
    (∀ maker_fee maker_proportion : K,
      (calculate_outputs ops
          { s with maker_fee_ := maker_fee, maker_proportion_ := maker_proportion }).fees_ =
        (calculate_outputs ops s).fees_) ∧
    (calculate_outputs ops s).market_impact_ =
      max ((calculate_outputs ops s).volatility_ * (calculate_outputs ops s).cached_mid_price_ *
            ops.pow s.quantity_ 1.5 / ops.sqrt 86400) 0.0001 ∧
    (calculate_outputs ops s).volatility_ * (calculate_outputs ops s).cached_mid_price_ =
      (calculate_outputs ops s).cached_spread_ ∧
    (calculate_outputs ops s).cached_spread_ = a.1 - b.1 := by
  refine ⟨?_, ?_, ?_, ?_, ?_, ?_, ?_⟩
  · rw [calculate_outputs_of_best ops s b a hb ha]
  · rw [calculate_outputs_of_best ops s b a hb ha]
  · rw [calculate_outputs_of_best ops s b a hb ha]
  · intro maker_fee maker_proportion
    rw [calculate_outputs_of_best ops s b a hb ha,
      calculate_outputs_of_best ops
        { s with maker_fee_ := maker_fee, maker_proportion_ := maker_proportion } b a hb ha]
  · rw [calculate_outputs_of_best ops s b a hb ha]
    simp only [stdMax_eq_max, one_mul]
  · rw [calculate_outputs_of_best ops s b a hb ha]
    exact div_mul_cancel₀ _ hmid
  · rw [calculate_outputs_of_best ops s b a hb ha]

theorem calculate_outputs_net_cost_witness :
    bestLevel (sampleState sampleBook 0.5).orderbook_.bids = some (100, 2) ∧
    bestLevel (sampleState sampleBook 0.5).orderbook_.asks = some (100.2, 1) ∧
    ((100 : ℚ) + 100.2) / 2 ≠ 0 ∧
    (calculate_outputs sampleOps (sampleState sampleBook 0.5)).fees_ =
      (sampleState sampleBook 0.5).quantity_ *
        (calculate_outputs sampleOps (sampleState sampleBook 0.5)).cached_mid_price_ *
        (sampleState sampleBook 0.5).taker_fee_ ∧
    (calculate_outputs sampleOps (sampleState sampleBook 0.5)).cached_spread_ =
      (100.2 : ℚ) - 100 := by
  have hb : bestLevel (sampleState sampleBook 0.5).orderbook_.bids = some (100, 2) := by
    simp [sampleState, sampleBook, bestLevel, validLevel]
  have ha : bestLevel (sampleState sampleBook 0.5).orderbook_.asks = some (100.2, 1) := by
    simp [sampleState, sampleBook, bestLevel, validLevel]
  have hmid : ((100 : ℚ) + 100.2) / 2 ≠ 0 := by norm_num
  have key := calculate_outputs_net_cost sampleOps (sampleState sampleBook 0.5) _ _ hb ha hmid
  exact ⟨hb, ha, hmid, key.2.2.1, key.2.2.2.2.2.2⟩

/-! ### Slippage ordering -/

theorem fillQty_cons (Q : K) (x : K × K) (rest : List (K × K)) :
    fillQty Q (x :: rest) = specFill Q x + fillQty (Q - specFill Q x) rest := by
  simp [fillQty, specFills]

theorem fillCost_cons (Q : K) (x : K × K) (rest : List (K × K)) :
    fillCost Q (x :: rest) = specFill Q x * x.1 + fillCost (Q - specFill Q x) rest := by
  simp [fillCost, specFills]

theorem fill_of_nonpos (Q : K) (l : List (K × K)) (h : Q ≤ 0) :
    fillQty Q l = 0 ∧ fillCost Q l = 0 :=
  specFills_of_nonpos Q l h

theorem fillQty_nonneg (Q : K) (l : List (K × K)) : 0 ≤ fillQty Q l :=
  specFills_sum_nonneg Q l

theorem specFill_mono (x : K × K) (Q1 Q2 : K) (h : Q1 ≤ Q2) :
    specFill Q1 x ≤ specFill Q2 x ∧ Q1 - specFill Q1 x ≤ Q2 - specFill Q2 x := by
  by_cases h1 : Q1 ≤ 0
  · have e1 : specFill Q1 x = 0 := by simp [specFill, h1]
    rw [e1]
    refine ⟨specFill_nonneg _ _, ?_⟩
    by_cases h2 : Q2 ≤ 0
    · have e2 : specFill Q2 x = 0 := by simp [specFill, h2]
      rw [e2]; linarith
    · by_cases hv : 0 < x.2
      · have e2 : specFill Q2 x = min Q2 x.2 := by simp [specFill, h2, hv]
        have := min_le_left Q2 x.2
        rw [e2]; linarith
      · have e2 : specFill Q2 x = 0 := by simp [specFill, hv]
        rw [e2]; linarith
  · have h2 : ¬ Q2 ≤ 0 := fun h2 => h1 (le_trans h h2)
    by_cases hv : 0 < x.2
    · have e1 : specFill Q1 x = min Q1 x.2 := by simp [specFill, h1, hv]
      have e2 : specFill Q2 x = min Q2 x.2 := by simp [specFill, h2, hv]
      rw [e1, e2]
      refine ⟨min_le_min h (le_refl _), ?_⟩
      rcases le_total Q1 x.2 with hq | hq
      · rw [min_eq_left hq]
        have := min_le_left Q2 x.2
        linarith
      · rw [min_eq_right hq, min_eq_right (le_trans hq h)]
        linarith
    · have e1 : specFill Q1 x = 0 := by simp [specFill, hv]
      have e2 : specFill Q2 x = 0 := by simp [specFill, hv]
      rw [e1, e2]
      exact ⟨le_refl 0, by linarith⟩

theorem specFill_pos_valid (Q : K) (x : K × K) (h : specFill Q x ≠ 0) : 0 < x.2 := by
  unfold specFill at h
  split_ifs at h with h1 h2
  · exact absurd rfl h
  · exact h2
  · exact absurd rfl h

/-- What a larger target takes in addition is taken at prices that are at
least any lower bound of the valid prices of the window. -/
theorem fill_extra (P : K) (l : List (K × K)) (hP : ∀ lvl ∈ l, 0 < lvl.2 → P ≤ lvl.1)
    (Q1 Q2 : K) (h : Q1 ≤ Q2) :
    fillQty Q1 l ≤ fillQty Q2 l ∧
    P * (fillQty Q2 l - fillQty Q1 l) ≤ fillCost Q2 l - fillCost Q1 l := by
  induction l generalizing Q1 Q2 with
  | nil => simp [fillQty, fillCost, specFills]
  | cons x rest ih =>
    have hm := specFill_mono x Q1 Q2 h
    have ih1 := ih (fun lvl hl => hP lvl (List.mem_cons_of_mem _ hl)) _ _ hm.2
    rw [fillQty_cons, fillQty_cons, fillCost_cons, fillCost_cons]
    refine ⟨by linarith [hm.1, ih1.1], ?_⟩
    have hstep : P * (specFill Q2 x - specFill Q1 x) ≤ (specFill Q2 x - specFill Q1 x) * x.1 := by
      by_cases hz : specFill Q2 x = 0
      · have h0 : specFill Q1 x = 0 := le_antisymm (hz ▸ hm.1) (specFill_nonneg Q1 x)
        simp [hz, h0]
      · have hv := specFill_pos_valid Q2 x hz
        have hp := hP x (List.mem_cons_self _ _) hv
        rw [mul_comm]
        exact mul_le_mul_of_nonneg_left hp (sub_nonneg.2 hm.1)
    linarith [ih1.2]

/-- Cost is at least quantity times any lower bound of the valid prices. -/
theorem fill_cost_lower (P : K) (l : List (K × K)) (hP : ∀ lvl ∈ l, 0 < lvl.2 → P ≤ lvl.1)
    (Q : K) : P * fillQty Q l ≤ fillCost Q l := by
  rcases le_total Q 0 with hQ | hQ
  · simp [(fill_of_nonpos Q l hQ).1, (fill_of_nonpos Q l hQ).2]
  · have h := (fill_extra P l hP 0 Q hQ).2
    simpa [(fill_of_nonpos 0 l (le_refl 0)).1, (fill_of_nonpos 0 l (le_refl 0)).2] using h

/-- On a window whose valid levels are in ascending price order the average
fill price does not decrease with the target (in cross-multiplied form). -/
theorem fill_avg_mono (l : List (K × K))
    (hs : (l.filter validLevel).Pairwise fun x y => x.1 ≤ y.1) (Q1 Q2 : K) (h : Q1 ≤ Q2) :
    fillCost Q1 l * fillQty Q2 l ≤ fillCost Q2 l * fillQty Q1 l := by
  induction l generalizing Q1 Q2 with
  | nil => simp [fillQty, fillCost, specFills]
  | cons x rest ih =>
    rcases le_or_lt Q1 0 with hQ1 | hQ1
    · simp [(fill_of_nonpos Q1 _ hQ1).1, (fill_of_nonpos Q1 _ hQ1).2]
    · have hQ2 : 0 < Q2 := lt_of_lt_of_le hQ1 h
      by_cases hv : 0 < x.2
      · have hval : validLevel x = true := by simpa [validLevel] using hv
        rw [List.filter_cons_of_pos hval, List.pairwise_cons] at hs
        have hP : ∀ lvl ∈ rest, 0 < lvl.2 → x.1 ≤ lvl.1 := fun lvl hl hpos =>
          hs.1 lvl (List.mem_filter.2 ⟨hl, by simpa [validLevel] using hpos⟩)
        have hm := specFill_mono x Q1 Q2 h
        have hex := fill_extra x.1 rest hP _ _ hm.2
        have ih1 := ih hs.2 _ _ hm.2
        rw [fillQty_cons, fillQty_cons, fillCost_cons, fillCost_cons]
        rcases lt_or_le x.2 Q1 with hq | hq
        · have e1 : specFill Q1 x = x.2 := by
            simp [specFill, not_le.2 hQ1, hv, min_eq_right hq.le]
          have e2 : specFill Q2 x = x.2 := by
            simp [specFill, not_le.2 hQ2, hv, min_eq_right (le_trans hq.le h)]
          rw [e1, e2] at hex ih1 ⊢
          have hprod := mul_le_mul_of_nonneg_left hex.2 hv.le
          nlinarith [hprod, ih1]
        · have e1 : specFill Q1 x = Q1 := by
            simp [specFill, not_le.2 hQ1, hv, min_eq_left hq]
          rw [e1] at hex ih1 ⊢
          have hz := fill_of_nonpos (Q1 - Q1) rest (by simp)
          rw [hz.1, hz.2]
          have hlow := fill_cost_lower x.1 rest hP (Q2 - specFill Q2 x)
          have hprod := mul_le_mul_of_nonneg_left hlow hQ1.le
          nlinarith [hprod]
      · have hval : validLevel x = false := by simpa [validLevel] using hv
        rw [List.filter_cons_of_neg (by simp [hval])] at hs
        have e1 : specFill Q1 x = 0 := by simp [specFill, hv]
        have e2 : specFill Q2 x = 0 := by simp [specFill, hv]
        rw [fillQty_cons, fillQty_cons, fillCost_cons, fillCost_cons, e1, e2]
        simpa using ih hs Q1 Q2 h

theorem dropWhile_of_bestLevel (l : List (K × K)) (a : K × K) (h : bestLevel l = some a) :
    ∃ tl, (l.dropWhile fun lvl => !validLevel lvl) = a :: tl := by
  induction l with
  | nil => simp [bestLevel] at h
  | cons x rest ih =>
    unfold bestLevel at h
    rw [List.find?_cons] at h
    cases hval : validLevel x with
    | true =>
      rw [hval] at h
      simp only [Option.some.injEq] at h
      subst h
      exact ⟨rest, by simp [List.dropWhile_cons, hval]⟩
    | false =>
      rw [hval] at h
      obtain ⟨tl, htl⟩ := ih h
      exact ⟨tl, by simp [List.dropWhile_cons, hval, htl]⟩

theorem specWindow_of_bestLevel (asks : List (K × K)) (a : K × K)
    (h : bestLevel asks = some a) : ∃ tl, specWindow asks = a :: tl := by
  obtain ⟨tl, htl⟩ := dropWhile_of_bestLevel asks a h
  exact ⟨tl.take 4, by simp [specWindow, htl]⟩

theorem specWindow_sorted (asks : List (K × K))
    (hs : (asks.filter validLevel).Pairwise fun x y => x.1 ≤ y.1) :
    ((specWindow asks).filter validLevel).Pairwise fun x y => x.1 ≤ y.1 := by
  have hsub : (specWindow asks).Sublist asks :=
    (List.take_sublist _ _).trans (List.dropWhile_sublist _)
  exact hs.sublist (hsub.filter _)

/-- The slippage of the specification's wording does not decrease with the
target on a book with positive mid whose valid asks ascend in price, when the
smaller target is positive or the best ask is not below the best bid. -/
theorem specSlippage_mono (asks : List (K × K)) (b a : K × K) (ha : bestLevel asks = some a)
    (hmid : 0 < (b.1 + a.1) / 2)
    (hs : (asks.filter validLevel).Pairwise fun x y => x.1 ≤ y.1)
    (Q1 Q2 : K) (hQ : Q1 ≤ Q2) (hpos : 0 < Q1 ∨ b.1 ≤ a.1) :
    specSlippage Q1 ((b.1 + a.1) / 2) asks ≤ specSlippage Q2 ((b.1 + a.1) / 2) asks := by
  obtain ⟨tl, hW⟩ := specWindow_of_bestLevel asks a ha
  have hav : 0 < a.2 := (bestLevel_valid asks a ha).1
  have hsW := specWindow_sorted asks hs
  have hlow : ∀ lvl ∈ specWindow asks, 0 < lvl.2 → a.1 ≤ lvl.1 := by
    intro lvl hl hv
    rw [hW] at hl hsW
    have haval : validLevel a = true := by simpa [validLevel] using hav
    rw [List.filter_cons_of_pos haval, List.pairwise_cons] at hsW
    rcases List.mem_cons.1 hl with rfl | hl
    · exact le_refl _
    · exact hsW.1 lvl (List.mem_filter.2 ⟨hl, by simpa [validLevel] using hv⟩)
  have hF := (fill_extra a.1 (specWindow asks) hlow Q1 Q2 hQ).1
  have hM := fill_avg_mono (specWindow asks) hsW Q1 Q2 hQ
  have hnn1 := fillQty_nonneg Q1 (specWindow asks)
  have hnn2 := fillQty_nonneg Q2 (specWindow asks)
  unfold specSlippage specFilled specCost
  by_cases h1 : fillQty Q1 (specWindow asks) = 0
  · rw [if_pos h1]
    by_cases h2 : fillQty Q2 (specWindow asks) = 0
    · rw [if_pos h2]
    · rw [if_neg h2]
      have h2pos : 0 < fillQty Q2 (specWindow asks) := lt_of_le_of_ne hnn2 (Ne.symm h2)
      have hba : b.1 ≤ a.1 := by
        rcases hpos with hq | hba
        · exfalso
          rw [hW, fillQty_cons] at h1
          have hfa : 0 < specFill Q1 a := by
            simp [specFill, not_le.2 hq, hav, lt_min hq hav]
          have := fillQty_nonneg (Q1 - specFill Q1 a) tl
          linarith
        · exact hba
      have hcost := fill_cost_lower a.1 (specWindow asks) hlow Q2
      have havg : (b.1 + a.1) / 2 ≤ fillCost Q2 (specWindow asks) / fillQty Q2 (specWindow asks) := by
        rw [le_div_iff₀ h2pos]
        have hle : (b.1 + a.1) / 2 ≤ a.1 := by linarith
        have := mul_le_mul_of_nonneg_right hle h2pos.le
        linarith
      have : 0 ≤ (fillCost Q2 (specWindow asks) / fillQty Q2 (specWindow asks) - (b.1 + a.1) / 2) /
          ((b.1 + a.1) / 2) := div_nonneg (sub_nonneg.2 havg) hmid.le
      linarith
  · have h1pos : 0 < fillQty Q1 (specWindow asks) := lt_of_le_of_ne hnn1 (Ne.symm h1)
    have h2pos : 0 < fillQty Q2 (specWindow asks) := lt_of_lt_of_le h1pos hF
    rw [if_neg h1, if_neg (ne_of_gt h2pos)]
    have havg : fillCost Q1 (specWindow asks) / fillQty Q1 (specWindow asks) ≤
        fillCost Q2 (specWindow asks) / fillQty Q2 (specWindow asks) := by
      rw [div_le_div_iff₀ h1pos h2pos]
      exact hM
    have hdiv : (fillCost Q1 (specWindow asks) / fillQty Q1 (specWindow asks) - (b.1 + a.1) / 2) /
          ((b.1 + a.1) / 2) ≤
        (fillCost Q2 (specWindow asks) / fillQty Q2 (specWindow asks) - (b.1 + a.1) / 2) /
          ((b.1 + a.1) / 2) :=
      div_le_div_of_nonneg_right (by linarith) hmid.le
    linarith

/-- C6 (counterexample). Three books with a valid level on each side and two
targets `Q1 ≤ Q2` for which the slippage with `Q2` is below the slippage with
`Q1`: asks that are not in ascending price order, a crossed book with
`Q1 = 0`, and a book with negative prices. -/
theorem calculate_outputs_slippage_not_monotone :
    ((1 : ℚ) ≤ 2 ∧
      (calculate_outputs sampleOps (sampleState bookUnsorted 2)).slippage_ <
        (calculate_outputs sampleOps (sampleState bookUnsorted 1)).slippage_) ∧
    ((0 : ℚ) ≤ 1 ∧
      (calculate_outputs sampleOps (sampleState bookCrossed 1)).slippage_ <
        (calculate_outputs sampleOps (sampleState bookCrossed 0)).slippage_) ∧
    ((1 : ℚ) ≤ 2 ∧
      (calculate_outputs sampleOps (sampleState bookNegative 2)).slippage_ <
        (calculate_outputs sampleOps (sampleState bookNegative 1)).slippage_) := by
  have e1 : (calculate_outputs sampleOps (sampleState bookUnsorted 1)).slippage_ = 100 / 201 := by
    rw [calculate_outputs_of_best sampleOps _ (100, 1) (101, 1)
      (by simp [sampleState, bookUnsorted, bestLevel, validLevel])
      (by simp [sampleState, bookUnsorted, bestLevel, validLevel])]
    simp [specSlippage, specFilled, specCost, fillQty, fillCost, specWindow, specFills,
      specFill, sampleState, bookUnsorted, validLevel]
    norm_num
  have e2 : (calculate_outputs sampleOps (sampleState bookUnsorted 2)).slippage_ = 50 / 201 := by
    rw [calculate_outputs_of_best sampleOps _ (100, 1) (101, 1)
      (by simp [sampleState, bookUnsorted, bestLevel, validLevel])
      (by simp [sampleState, bookUnsorted, bestLevel, validLevel])]
    simp [specSlippage, specFilled, specCost, fillQty, fillCost, specWindow, specFills,
      specFill, sampleState, bookUnsorted, validLevel]
    norm_num
  have e3 : (calculate_outputs sampleOps (sampleState bookCrossed 0)).slippage_ = 0 := by
    rw [calculate_outputs_of_best sampleOps _ (101, 1) (100, 1)
      (by simp [sampleState, bookCrossed, bestLevel, validLevel])
      (by simp [sampleState, bookCrossed, bestLevel, validLevel])]
    simp [specSlippage, specFilled, specCost, fillQty, fillCost, specWindow, specFills,
      specFill, sampleState, bookCrossed, validLevel]
  have e4 : (calculate_outputs sampleOps (sampleState bookCrossed 1)).slippage_ = -(100 / 201) := by
    rw [calculate_outputs_of_best sampleOps _ (101, 1) (100, 1)
      (by simp [sampleState, bookCrossed, bestLevel, validLevel])
      (by simp [sampleState, bookCrossed, bestLevel, validLevel])]
    simp [specSlippage, specFilled, specCost, fillQty, fillCost, specWindow, specFills,
      specFill, sampleState, bookCrossed, validLevel]
    norm_num
  have e5 : (calculate_outputs sampleOps (sampleState bookNegative 1)).slippage_ = -(100 / 201) := by
    rw [calculate_outputs_of_best sampleOps _ (-101, 1) (-100, 1)
      (by simp [sampleState, bookNegative, bestLevel, validLevel])
      (by simp [sampleState, bookNegative, bestLevel, validLevel])]
    simp [specSlippage, specFilled, specCost, fillQty, fillCost, specWindow, specFills,
      specFill, sampleState, bookNegative, validLevel]
    norm_num
  have e6 : (calculate_outputs sampleOps (sampleState bookNegative 2)).slippage_ = -(200 / 201) := by
    rw [calculate_outputs_of_best sampleOps _ (-101, 1) (-100, 1)
      (by simp [sampleState, bookNegative, bestLevel, validLevel])
      (by simp [sampleState, bookNegative, bestLevel, validLevel])]
    simp [specSlippage, specFilled, specCost, fillQty, fillCost, specWindow, specFills,
      specFill, sampleState, bookNegative, validLevel]
    norm_num
  rw [e1, e2, e3, e4, e5, e6]
  norm_num

/-- C6 (amended). Slippage ordering: for every book with a valid level on each
side whose mid price is positive and whose valid ask levels are in
non-decreasing price order, and every pair of targets `Q1 ≤ Q2` such that
`Q1 > 0` or the best bid price is not above the best ask price, the slippage
`calculate_outputs` computes with target `Q2` is greater than or equal to the
one it computes with target `Q1`. -/
theorem calculate_outputs_slippage_mono (ops : MathOps K) (s : TradeSimulator K) (b a : K × K)
    (hb : bestLevel s.orderbook_.bids = some b) (ha : bestLevel s.orderbook_.asks = some a)
    (hmid : 0 < (b.1 + a.1) / 2)
    (hsorted : (s.orderbook_.asks.filter validLevel).Pairwise fun x y => x.1 ≤ y.1)
    (Q1 Q2 : K) (hQ : Q1 ≤ Q2) (hpos : 0 < Q1 ∨ b.1 ≤ a.1) :
    (calculate_outputs ops { s with quantity_ := Q1 }).slippage_ ≤
      (calculate_outputs ops { s with quantity_ := Q2 }).slippage_ := by
  rw [calculate_outputs_of_best ops { s with quantity_ := Q1 } b a hb ha,
    calculate_outputs_of_best ops { s with quantity_ := Q2 } b a hb ha]
  exact specSlippage_mono s.orderbook_.asks b a ha hmid hsorted Q1 Q2 hQ hpos

theorem calculate_outputs_slippage_mono_witness :
    bestLevel (sampleState bookTwoAsks 0.5).orderbook_.bids = some (100, 2) ∧
    bestLevel (sampleState bookTwoAsks 0.5).orderbook_.asks = some (100.2, 1) ∧
    (0 : ℚ) < ((100 : ℚ) + 100.2) / 2 ∧
    ((sampleState bookTwoAsks 0.5).orderbook_.asks.filter validLevel).Pairwise
      (fun x y => x.1 ≤ y.1) ∧
    (0.5 : ℚ) ≤ 2 ∧
    (calculate_outputs sampleOps { sampleState bookTwoAsks 0.5 with quantity_ := 0.5 }).slippage_ ≤
      (calculate_outputs sampleOps { sampleState bookTwoAsks 0.5 with quantity_ := 2 }).slippage_ := by
  have hb : bestLevel (sampleState bookTwoAsks 0.5).orderbook_.bids = some (100, 2) := by
    simp [sampleState, bookTwoAsks, bestLevel, validLevel]
  have ha : bestLevel (sampleState bookTwoAsks 0.5).orderbook_.asks = some (100.2, 1) := by
    simp [sampleState, bookTwoAsks, bestLevel, validLevel]
  have hmid : (0 : ℚ) < ((100 : ℚ) + 100.2) / 2 := by norm_num
  have hs : ((sampleState bookTwoAsks 0.5).orderbook_.asks.filter validLevel).Pairwise
      (fun x y => x.1 ≤ y.1) := by
    simp [sampleState, bookTwoAsks, validLevel]
    norm_num
  have hQ : (0.5 : ℚ) ≤ 2 := by norm_num
  exact ⟨hb, ha, hmid, hs, hQ,
    calculate_outputs_slippage_mono sampleOps (sampleState bookTwoAsks 0.5) (100, 2) (100.2, 1)
      hb ha hmid hs 0.5 2 hQ (Or.inl (by norm_num))⟩

/-! ### Maker proportion -/

theorem logistic_mem_unit (e : K) (he : 0 < e) : 0 ≤ 1 / (1 + e) ∧ 1 / (1 + e) ≤ 1 := by
  have hpos : 0 < 1 + e := by linarith
  refine ⟨(div_pos one_pos hpos).le, ?_⟩
  rw [div_le_one hpos]
  linarith

theorem smoothing_mem_unit (prior raw : K) (hp0 : 0 ≤ prior) (hp1 : prior ≤ 1)
    (hr0 : 0 ≤ raw) (hr1 : raw ≤ 1) :
    0 ≤ 0.9 * prior + 0.1 * raw ∧ 0.9 * prior + 0.1 * raw ≤ 1 := by
  norm_num
  constructor <;> linarith

/-- One call of `calculate_outputs` keeps the maker proportion in `[0, 1]`
when `exp` is positive. -/
theorem maker_proportion_step (ops : MathOps K) (hexp : ∀ x, 0 < ops.exp x)
    (s : TradeSimulator K) (h0 : 0 ≤ s.maker_proportion_) (h1 : s.maker_proportion_ ≤ 1) :
    0 ≤ (calculate_outputs ops s).maker_proportion_ ∧
      (calculate_outputs ops s).maker_proportion_ ≤ 1 := by
  by_cases hbid : ∃ lvl ∈ s.orderbook_.bids, 0 < lvl.2
  · by_cases hask : ∃ lvl ∈ s.orderbook_.asks, 0 < lvl.2
    · obtain ⟨b, hb⟩ := bestLevel_of_exists _ hbid
      obtain ⟨a, ha⟩ := bestLevel_of_exists _ hask
      rw [calculate_outputs_of_best ops s b a hb ha]
      simp only
      generalize (if 0 < b.2 + a.2 then b.2 / (b.2 + a.2) else (0.5 : K)) = r
      have hraw := logistic_mem_unit _ (hexp (-5 * (r - 0.5)))
      split_ifs with hfin
      · exact smoothing_mem_unit _ _ h0 h1 hraw.1 hraw.2
      · exact hraw
    · rw [calculate_outputs_of_no_valid ops s (Or.inr hask)]
      exact ⟨h0, h1⟩
  · rw [calculate_outputs_of_no_valid ops s (Or.inl hbid)]
    exact ⟨h0, h1⟩

theorem maker_proportion_calcRun (ops : MathOps K) (hexp : ∀ x, 0 < ops.exp x)
    (books : List (Orderbook K)) (s : TradeSimulator K)
    (h0 : 0 ≤ s.maker_proportion_) (h1 : s.maker_proportion_ ≤ 1) :
    0 ≤ (calcRun ops s books).maker_proportion_ ∧ (calcRun ops s books).maker_proportion_ ≤ 1 := by
  induction books generalizing s with
  | nil => exact ⟨h0, h1⟩
  | cons book rest ih =>
    have hstep := maker_proportion_step ops hexp { s with orderbook_ := book } h0 h1
    exact ih _ hstep.1 hstep.2

end CalculatorFacts

section RealValued

/-- C7. With real-valued prices and quantities and the real exponential, the
maker proportion stays in `[0, 1]`: starting from the initial value `0.5`,
after any finite sequence of `calculate_outputs` calls on arbitrary books it
is in `[0, 1]`; in each call on a book with a valid level on each side
`raw = 1/(1+exp(−5·(liquidity_ratio − 0.5)))` lies in `[0, 1]` for
`liquidity_ratio = best_bid.qty / (best_bid.qty + best_ask.qty)` and the new
value is `0.9·prior + 0.1·raw`, which lies in `[0, 1]` for every prior in
`[0, 1]`. -/
theorem maker_proportion_in_unit_interval :
    (∀ (timestamp : Int) (books : List (Orderbook ℝ)),
      0 ≤ (calcRun (MathOps.mk Real.exp Real.rpow Real.sqrt fun _ => true)
            (TradeSimulator.initial ℝ timestamp) books).maker_proportion_ ∧
      (calcRun (MathOps.mk Real.exp Real.rpow Real.sqrt fun _ => true)
            (TradeSimulator.initial ℝ timestamp) books).maker_proportion_ ≤ 1) ∧
    (TradeSimulator.initial ℝ 0).maker_proportion_ = 0.5 ∧
    (∀ (s : TradeSimulator ℝ) (b a : ℝ × ℝ),
      bestLevel s.orderbook_.bids = some b → bestLevel s.orderbook_.asks = some a →
      0 ≤ 1 / (1 + Real.exp (-5 * (b.2 / (b.2 + a.2) - 0.5))) ∧
      1 / (1 + Real.exp (-5 * (b.2 / (b.2 + a.2) - 0.5))) ≤ 1 ∧
      (calculate_outputs (MathOps.mk Real.exp Real.rpow Real.sqrt fun _ => true) s).maker_proportion_ =
        0.9 * s.maker_proportion_ + 0.1 * (1 / (1 + Real.exp (-5 * (b.2 / (b.2 + a.2) - 0.5))))) ∧
    (∀ prior raw : ℝ, 0 ≤ prior → prior ≤ 1 → 0 ≤ raw → raw ≤ 1 →
      0 ≤ 0.9 * prior + 0.1 * raw ∧ 0.9 * prior + 0.1 * raw ≤ 1) := by
  refine ⟨?_, rfl, ?_, fun prior raw hp0 hp1 hr0 hr1 => smoothing_mem_unit prior raw hp0 hp1 hr0 hr1⟩
  · intro timestamp books
    apply maker_proportion_calcRun _ (fun x => Real.exp_pos x)
    · show (0 : ℝ) ≤ 0.5
      norm_num
    · show (0.5 : ℝ) ≤ 1
      norm_num
  · intro s b a hb ha
    have hraw := logistic_mem_unit (Real.exp (-5 * (b.2 / (b.2 + a.2) - 0.5))) (Real.exp_pos _)
    refine ⟨hraw.1, hraw.2, ?_⟩
    rw [calculate_outputs_of_best _ s b a hb ha]
    have hpos : 0 < b.2 + a.2 :=
      add_pos (bestLevel_valid _ _ hb).1 (bestLevel_valid _ _ ha).1
    simp only [if_pos hpos, if_true]

end RealValued

section PipelineFacts

variable {K : Type} [LinearOrderedField K]

/-- `calculate_outputs` leaves the queue, the latency buffers, the update
counter, the benchmark output and the book as they are. -/
theorem calculate_outputs_frame (ops : MathOps K) (s : TradeSimulator K) :
    (calculate_outputs ops s).ui_queue_ = s.ui_queue_ ∧
    (calculate_outputs ops s).json_parse_latencies_ = s.json_parse_latencies_ ∧
    (calculate_outputs ops s).data_proc_latencies_ = s.data_proc_latencies_ ∧
    (calculate_outputs ops s).ui_update_latencies_ = s.ui_update_latencies_ ∧
    (calculate_outputs ops s).e2e_latencies_ = s.e2e_latencies_ ∧
    (calculate_outputs ops s).update_count_ = s.update_count_ ∧
    (calculate_outputs ops s).benchmark_out = s.benchmark_out ∧
    (calculate_outputs ops s).orderbook_ = s.orderbook_ := by
  by_cases hbid : ∃ lvl ∈ s.orderbook_.bids, 0 < lvl.2
  · by_cases hask : ∃ lvl ∈ s.orderbook_.asks, 0 < lvl.2
    · obtain ⟨b, hb⟩ := bestLevel_of_exists _ hbid
      obtain ⟨a, ha⟩ := bestLevel_of_exists _ hask
      rw [calculate_outputs_of_best ops s b a hb ha]
      exact ⟨rfl, rfl, rfl, rfl, rfl, rfl, rfl, rfl⟩
    · rw [calculate_outputs_of_no_valid ops s (Or.inr hask)]
      exact ⟨rfl, rfl, rfl, rfl, rfl, rfl, rfl, rfl⟩
  · rw [calculate_outputs_of_no_valid ops s (Or.inl hbid)]
    exact ⟨rfl, rfl, rfl, rfl, rfl, rfl, rfl, rfl⟩

theorem on_message_invalid (ops : MathOps K) (stod : String → Option K)
    (stol : String → Option Int) (s : TradeSimulator K) (data : JValue) (now : Clock K)
    (h : messageInvalid data = true) :
    on_message ops stod stol s data now = some { s with logged_json_ := true } := by
  unfold on_message
  simp only [h, if_true]

theorem on_message_threw (ops : MathOps K) (stod : String → Option K)
    (stol : String → Option Int) (s : TradeSimulator K) (data : JValue) (now : Clock K)
    (record : JObject) (book : Orderbook K) (hmsg : messageInvalid data = false)
    (hrec : (JObject.get data.members "data").idx 0 = JValue.object record)
    (hthrow : process_orderbook stod stol s.orderbook_ record = Outcome.threw book) :
    on_message ops stod stol s data now =
      some { s with logged_json_ := true, orderbook_ := book } := by
  unfold on_message
  simp only [hmsg, Bool.false_eq_true, if_false, hrec, hthrow]

/-- The state `on_message` produces when the record is processed without an
exception, in terms of the state `s1` that `calculate_outputs` returns. -/
theorem on_message_returned (ops : MathOps K) (stod : String → Option K)
    (stol : String → Option Int) (s : TradeSimulator K) (data : JValue) (now : Clock K)
    (record : JObject) (book : Orderbook K) (hmsg : messageInvalid data = false)
    (hrec : (JObject.get data.members "data").idx 0 = JValue.object record)
    (hret : process_orderbook stod stol s.orderbook_ record = Outcome.returned book) :
    ∃ s1 s3 : TradeSimulator K,
      s1 = calculate_outputs ops { s with logged_json_ := true, orderbook_ := book } ∧
      s3 = { s1 with
              ui_queue_ := s1.ui_queue_ ++
                [{ slippage := s1.slippage_, fees := s1.fees_, market_impact := s1.market_impact_,
                   net_cost := s1.net_cost_, maker_proportion := s1.maker_proportion_,
                   volatility := s1.volatility_, latency_ms := now.calc_end - now.data_proc_end }]
              json_parse_latencies_ :=
                s1.json_parse_latencies_ ++ [now.json_parse_end - now.e2e_start]
              data_proc_latencies_ :=
                s1.data_proc_latencies_ ++ [now.data_proc_end - now.json_parse_end]
              e2e_latencies_ := s1.e2e_latencies_ ++ [now.calc_end - now.e2e_start]
              update_count_ := (s1.update_count_ + 1) % 2 ^ 64 } ∧
      on_message ops stod stol s data now =
        some (if s3.update_count_ % benchmark_interval_ = 0 then report_benchmarks s3 else s3) := by
  refine ⟨_, _, rfl, rfl, ?_⟩
  unfold on_message
  simp only [hmsg, Bool.false_eq_true, if_false, hrec, hret]
  split_ifs <;> rfl

/-- When the record is processed without an exception, `on_message` appends
one record to the queue, built from the outputs `calculate_outputs` leaves. -/
theorem on_message_returned_queue (ops : MathOps K) (stod : String → Option K)
    (stol : String → Option Int) (s : TradeSimulator K) (data : JValue) (now : Clock K)
    (record : JObject) (book : Orderbook K) (hmsg : messageInvalid data = false)
    (hrec : (JObject.get data.members "data").idx 0 = JValue.object record)
    (hret : process_orderbook stod stol s.orderbook_ record = Outcome.returned book) :
    ∃ s', on_message ops stod stol s data now = some s' ∧
      s'.ui_queue_ = s.ui_queue_ ++
        [{ slippage :=
             (calculate_outputs ops { s with logged_json_ := true, orderbook_ := book }).slippage_
           fees :=
             (calculate_outputs ops { s with logged_json_ := true, orderbook_ := book }).fees_
           market_impact :=
             (calculate_outputs ops
               { s with logged_json_ := true, orderbook_ := book }).market_impact_
           net_cost :=
             (calculate_outputs ops { s with logged_json_ := true, orderbook_ := book }).net_cost_
           maker_proportion :=
             (calculate_outputs ops
               { s with logged_json_ := true, orderbook_ := book }).maker_proportion_
           volatility :=
             (calculate_outputs ops
               { s with logged_json_ := true, orderbook_ := book }).volatility_
           latency_ms := now.calc_end - now.data_proc_end }] := by
  obtain ⟨s1, s3, hs1, hs3, hrun⟩ :=
    on_message_returned ops stod stol s data now record book hmsg hrec hret
  have hq : s1.ui_queue_ = s.ui_queue_ := by
    rw [hs1]; exact (calculate_outputs_frame ops _).1
  refine ⟨_, hrun, ?_⟩
  rw [← hs1]
  have h3 : s3.ui_queue_ = s.ui_queue_ ++
      [{ slippage := s1.slippage_, fees := s1.fees_, market_impact := s1.market_impact_,
         net_cost := s1.net_cost_, maker_proportion := s1.maker_proportion_,
         volatility := s1.volatility_, latency_ms := now.calc_end - now.data_proc_end }] := by
    rw [hs3, ← hq]
  split_ifs
  · exact h3
  · exact h3

/-- C9 (counterexample). Two updates that are dropped or skipped, a record
without `bids` and a record whose book has an empty ask side: `on_message`
returns with the queue one record longer than before. -/
theorem on_message_pushes_for_dropped_update :
    (recordInvalid recordNoBids = true ∧
      ∃ s', on_message sampleOps sampleStod sampleStol (sampleState sampleBook 0.5)
          (messageOf recordNoBids) sampleClock = some s' ∧
        s'.ui_queue_ ≠ (sampleState sampleBook 0.5).ui_queue_) ∧
    (process_orderbook sampleStod sampleStol (sampleState sampleBook 0.5).orderbook_ recordNoAsks =
        Outcome.returned { bids := [(100, 2)], asks := [], timestamp := 1700000000000 } ∧
      ∃ s', on_message sampleOps sampleStod sampleStol (sampleState sampleBook 0.5)
          (messageOf recordNoAsks) sampleClock = some s' ∧
        s'.ui_queue_ ≠ (sampleState sampleBook 0.5).ui_queue_) := by
  have hinv : recordInvalid recordNoBids = true := by decide
  have hret2 : process_orderbook sampleStod sampleStol (sampleState sampleBook 0.5).orderbook_
      recordNoAsks =
        Outcome.returned { bids := [(100, 2)], asks := [], timestamp := 1700000000000 } := by
    have hv : recordInvalid recordNoAsks = false := by decide
    have hb : (recordNoAsks.get "bids").GetArray =
        [JValue.array [JValue.string "100.0", JValue.string "2.0"]] := rfl
    have ha : (recordNoAsks.get "asks").GetArray = [] := rfl
    have ht : (recordNoAsks.get "ts").GetString = "1700000000000" := rfl
    unfold process_orderbook
    simp only [hv, hb, ha, ht, Bool.false_eq_true, if_false]
    simp [levelLoop, levelSkipped, JValue.IsArray, JValue.Size, JValue.GetArray, JValue.idx,
      JValue.IsString, JValue.GetString, sampleStod, sampleStol]
  refine ⟨⟨hinv, ?_⟩, hret2, ?_⟩
  · obtain ⟨s', hrun, hq⟩ := on_message_returned_queue sampleOps sampleStod sampleStol
      (sampleState sampleBook 0.5) (messageOf recordNoBids) sampleClock recordNoBids _ rfl rfl
      (process_orderbook_of_invalid sampleStod sampleStol _ recordNoBids hinv)
    refine ⟨s', hrun, ?_⟩
    rw [hq]
    simp
  · obtain ⟨s', hrun, hq⟩ := on_message_returned_queue sampleOps sampleStod sampleStol
      (sampleState sampleBook 0.5) (messageOf recordNoAsks) sampleClock recordNoAsks _ rfl rfl
      hret2
    refine ⟨s', hrun, ?_⟩
    rw [hq]
    simp

/-- C9 (amended). `on_message` leaves the hand-off queue as it was when the
message fails the message guard (no object, no `data` array, or an empty one)
and when a conversion in `process_orderbook` raises. When the record is
rejected for a missing or mistyped `bids`, `asks` or `ts` field, or the
resulting book has no level with quantity `> 0` on one side, `on_message`
appends exactly one record to the queue: it carries the slippage, fees, market
impact, net cost, maker proportion and volatility the state had before the
call, and the calculation latency of this call. -/
theorem on_message_queue_for_dropped_update (ops : MathOps K) (stod : String → Option K)
    (stol : String → Option Int) (s : TradeSimulator K) (data : JValue) (now : Clock K) :
    (messageInvalid data = true →
      ∃ s', on_message ops stod stol s data now = some s' ∧ s'.ui_queue_ = s.ui_queue_) ∧
    (∀ record book, messageInvalid data = false →
      (JObject.get data.members "data").idx 0 = JValue.object record →
      process_orderbook stod stol s.orderbook_ record = Outcome.threw book →
      ∃ s', on_message ops stod stol s data now = some s' ∧ s'.ui_queue_ = s.ui_queue_) ∧
    (∀ record, messageInvalid data = false →
      (JObject.get data.members "data").idx 0 = JValue.object record →
      (recordInvalid record = true ∨
        ∃ book, process_orderbook stod stol s.orderbook_ record = Outcome.returned book ∧
          ((¬ ∃ lvl ∈ book.bids, 0 < lvl.2) ∨ (¬ ∃ lvl ∈ book.asks, 0 < lvl.2))) →
      ∃ s', on_message ops stod stol s data now = some s' ∧
        s'.ui_queue_ = s.ui_queue_ ++
          [{ slippage := s.slippage_, fees := s.fees_, market_impact := s.market_impact_,
             net_cost := s.net_cost_, maker_proportion := s.maker_proportion_,
             volatility := s.volatility_, latency_ms := now.calc_end - now.data_proc_end }]) := by
  refine ⟨?_, ?_, ?_⟩
  · intro h
    exact ⟨_, on_message_invalid ops stod stol s data now h, rfl⟩
  · intro record book hmsg hrec hthrow
    exact ⟨_, on_message_threw ops stod stol s data now record book hmsg hrec hthrow, rfl⟩
  · intro record hmsg hrec hdrop
    have hbook : ∃ book, process_orderbook stod stol s.orderbook_ record = Outcome.returned book ∧
        ((¬ ∃ lvl ∈ book.bids, 0 < lvl.2) ∨ (¬ ∃ lvl ∈ book.asks, 0 < lvl.2)) := by
      rcases hdrop with hinv | hbook
      · exact ⟨_, process_orderbook_of_invalid stod stol _ record hinv, Or.inl (by simp)⟩
      · exact hbook
    obtain ⟨book, hret, hnone⟩ := hbook
    obtain ⟨s', hrun, hq⟩ :=
      on_message_returned_queue ops stod stol s data now record book hmsg hrec hret
    refine ⟨s', hrun, ?_⟩
    rw [hq, calculate_outputs_of_no_valid ops _ hnone]

theorem on_message_queue_for_dropped_update_witness :
    messageInvalid (messageOf recordNoBids) = false ∧
    (JObject.get (messageOf recordNoBids).members "data").idx 0 = JValue.object recordNoBids ∧
    recordInvalid recordNoBids = true ∧
    (∃ s', on_message sampleOps sampleStod sampleStol (sampleState sampleBook 0.5)
        (messageOf recordNoBids) sampleClock = some s' ∧
      s'.ui_queue_ = (sampleState sampleBook 0.5).ui_queue_ ++
        [{ slippage := (sampleState sampleBook 0.5).slippage_
           fees := (sampleState sampleBook 0.5).fees_
           market_impact := (sampleState sampleBook 0.5).market_impact_
           net_cost := (sampleState sampleBook 0.5).net_cost_
           maker_proportion := (sampleState sampleBook 0.5).maker_proportion_
           volatility := (sampleState sampleBook 0.5).volatility_
           latency_ms := sampleClock.calc_end - sampleClock.data_proc_end }]) ∧
    messageInvalid messageNoData = true ∧
    (∃ s', on_message sampleOps sampleStod sampleStol (sampleState sampleBook 0.5)
        messageNoData sampleClock = some s' ∧
      s'.ui_queue_ = (sampleState sampleBook 0.5).ui_queue_) := by
  have h1 : messageInvalid (messageOf recordNoBids) = false := rfl
  have h2 : (JObject.get (messageOf recordNoBids).members "data").idx 0 =
      JValue.object recordNoBids := rfl
  have h3 : recordInvalid recordNoBids = true := by decide
  have h4 : messageInvalid messageNoData = true := rfl
  exact ⟨h1, h2, h3,
    (on_message_queue_for_dropped_update sampleOps sampleStod sampleStol
      (sampleState sampleBook 0.5) (messageOf recordNoBids) sampleClock).2.2
      recordNoBids h1 h2 (Or.inl h3),
    h4,
    (on_message_queue_for_dropped_update sampleOps sampleStod sampleStol
      (sampleState sampleBook 0.5) messageNoData sampleClock).1 h4⟩

/-! ### Benchmark window -/

theorem accumulate_foldl (v : List K) (acc : K) :
    v.foldl (fun acc x => acc + x) acc = acc + v.sum := by
  induction v generalizing acc with
  | nil => simp
  | cons x rest ih => rw [List.foldl_cons, ih, List.sum_cons]; ring

theorem accumulate_eq_sum (v : List K) : accumulate v = v.sum := by
  unfold accumulate
  rw [accumulate_foldl, zero_add]

/-- What a message that reaches the queue does to the counter, the latency
buffers and the benchmark output. -/
theorem on_message_counted (ops : MathOps K) (stod : String → Option K)
    (stol : String → Option Int) (s : TradeSimulator K) (data : JValue) (now : Clock K)
    (h : reachesQueue stod stol data = true) :
    ∃ s', on_message ops stod stol s data now = some s' ∧
      s'.update_count_ = (s.update_count_ + 1) % 2 ^ 64 ∧
      (s'.update_count_ % 100 = 0 →
        s'.json_parse_latencies_ = [] ∧ s'.data_proc_latencies_ = [] ∧
        s'.ui_update_latencies_ = [] ∧ s'.e2e_latencies_ = [] ∧
        s'.benchmark_out = s.benchmark_out ++
          [{ update := s'.update_count_
             avg_json_parse :=
               (s.json_parse_latencies_ ++ [now.json_parse_end - now.e2e_start]).sum /
                 ((s.json_parse_latencies_ ++ [now.json_parse_end - now.e2e_start]).length : K)
             avg_e2e :=
               (s.e2e_latencies_ ++ [now.calc_end - now.e2e_start]).sum /
                 ((s.e2e_latencies_ ++ [now.calc_end - now.e2e_start]).length : K) }]) ∧
      (s'.update_count_ % 100 ≠ 0 →
        s'.json_parse_latencies_ =
          s.json_parse_latencies_ ++ [now.json_parse_end - now.e2e_start] ∧
        s'.data_proc_latencies_ =
          s.data_proc_latencies_ ++ [now.data_proc_end - now.json_parse_end] ∧
        s'.ui_update_latencies_ = s.ui_update_latencies_ ∧
        s'.e2e_latencies_ = s.e2e_latencies_ ++ [now.calc_end - now.e2e_start] ∧
        s'.benchmark_out = s.benchmark_out) := by
  obtain ⟨hmsg, record, book, hrec, hret⟩ := reachesQueue_spec stod stol data h s.orderbook_
  obtain ⟨s1, s3, hs1, hs3, hrun⟩ :=
    on_message_returned ops stod stol s data now record book hmsg hrec hret
  have hf := calculate_outputs_frame ops { s with logged_json_ := true, orderbook_ := book }
  rw [← hs1] at hf
  obtain ⟨-, hf2, hf3, hf4, hf5, hf6, hf7, -⟩ := hf
  simp only at hf2 hf3 hf4 hf5 hf6 hf7
  have c3 : s3.update_count_ = (s.update_count_ + 1) % 2 ^ 64 := by rw [hs3, ← hf6]
  have p3 : s3.json_parse_latencies_ =
      s.json_parse_latencies_ ++ [now.json_parse_end - now.e2e_start] := by rw [hs3, ← hf2]
  have d3 : s3.data_proc_latencies_ =
      s.data_proc_latencies_ ++ [now.data_proc_end - now.json_parse_end] := by rw [hs3, ← hf3]
  have u3 : s3.ui_update_latencies_ = s.ui_update_latencies_ := by rw [hs3, ← hf4]
  have e3 : s3.e2e_latencies_ = s.e2e_latencies_ ++ [now.calc_end - now.e2e_start] := by
    rw [hs3, ← hf5]
  have o3 : s3.benchmark_out = s.benchmark_out := by rw [hs3, ← hf7]
  refine ⟨_, hrun, ?_⟩
  by_cases hrep : s3.update_count_ % benchmark_interval_ = 0
  · rw [if_pos hrep]
    refine ⟨c3, fun _ => ⟨rfl, rfl, rfl, rfl, ?_⟩, fun hne => ?_⟩
    · show s3.benchmark_out ++ _ = _
      rw [o3, accumulate_eq_sum, accumulate_eq_sum, p3, e3]
      rfl
    · exact absurd hrep hne
  · rw [if_neg hrep]
    exact ⟨c3, fun hz => absurd hz hrep, fun _ => ⟨p3, d3, u3, e3, o3⟩⟩

/-- What any call of `on_message` that returns does to the counter and to the
two buffers the reporter averages. -/
theorem on_message_window (ops : MathOps K) (stod : String → Option K)
    (stol : String → Option Int) (s s' : TradeSimulator K) (data : JValue) (now : Clock K)
    (h : on_message ops stod stol s data now = some s') :
    (s'.update_count_ = s.update_count_ ∧
      s'.json_parse_latencies_ = s.json_parse_latencies_ ∧
      s'.e2e_latencies_ = s.e2e_latencies_) ∨
    (s'.update_count_ = (s.update_count_ + 1) % 2 ^ 64 ∧
      ((s'.update_count_ % 100 = 0 ∧ s'.json_parse_latencies_ = [] ∧ s'.e2e_latencies_ = []) ∨
       (s'.update_count_ % 100 ≠ 0 ∧
        s'.json_parse_latencies_ =
          s.json_parse_latencies_ ++ [now.json_parse_end - now.e2e_start] ∧
        s'.e2e_latencies_ = s.e2e_latencies_ ++ [now.calc_end - now.e2e_start]))) := by
  by_cases hmsg : messageInvalid data = true
  · rw [on_message_invalid ops stod stol s data now hmsg] at h
    simp only [Option.some.injEq] at h
    subst h
    exact Or.inl ⟨rfl, rfl, rfl⟩
  · have hmsg1 : messageInvalid data = false := by simpa using hmsg
    cases hrec : (JObject.get data.members "data").idx 0 with
    | object record =>
      cases hp : process_orderbook stod stol s.orderbook_ record with
      | threw book =>
        rw [on_message_threw ops stod stol s data now record book hmsg1 hrec hp] at h
        simp only [Option.some.injEq] at h
        subst h
        exact Or.inl ⟨rfl, rfl, rfl⟩
      | returned book =>
        have hno : (process_orderbook stod stol { bids := [], asks := [], timestamp := 0 }
            record).isThrow = false := by
          rw [process_orderbook_isThrow_indep stod stol _ s.orderbook_ record, hp]
          rfl
        have hreach : reachesQueue stod stol data = true := by
          unfold reachesQueue
          rw [hrec, hmsg1]
          simp [hno]
        obtain ⟨t, hrun, hc, hz, hnz⟩ := on_message_counted ops stod stol s data now hreach
        rw [hrun] at h
        simp only [Option.some.injEq] at h
        subst h
        refine Or.inr ⟨hc, ?_⟩
        by_cases h0 : t.update_count_ % 100 = 0
        · exact Or.inl ⟨h0, (hz h0).1, (hz h0).2.2.2.1⟩
        · exact Or.inr ⟨h0, (hnz h0).1, (hnz h0).2.2.2.1⟩
    | null => unfold on_message at h; simp [hmsg1, hrec] at h
    | bool _ => unfold on_message at h; simp [hmsg1, hrec] at h
    | number _ => unfold on_message at h; simp [hmsg1, hrec] at h
    | string _ => unfold on_message at h; simp [hmsg1, hrec] at h
    | array _ => unfold on_message at h; simp [hmsg1, hrec] at h

/-- The window invariant: the counter is a 64-bit value and the parse and
end-to-end buffers each hold `update_count_ mod 100` samples. It is kept by
every call of `on_message` that returns. -/
theorem on_message_keeps_window (ops : MathOps K) (stod : String → Option K)
    (stol : String → Option Int) (s s' : TradeSimulator K) (data : JValue) (now : Clock K)
    (h : on_message ops stod stol s data now = some s')
    (hc : s.update_count_ < 2 ^ 64)
    (hp : s.json_parse_latencies_.length = s.update_count_ % 100)
    (he : s.e2e_latencies_.length = s.update_count_ % 100) :
    s'.update_count_ < 2 ^ 64 ∧
    s'.json_parse_latencies_.length = s'.update_count_ % 100 ∧
    s'.e2e_latencies_.length = s'.update_count_ % 100 := by
  rcases on_message_window ops stod stol s s' data now h with ⟨h1, h2, h3⟩ | ⟨h1, hcase⟩
  · rw [h1, h2, h3]
    exact ⟨hc, hp, he⟩
  · have hlt : s'.update_count_ < 2 ^ 64 := by
      rw [h1]
      exact Nat.mod_lt _ (by norm_num)
    rcases hcase with ⟨h0, h2, h3⟩ | ⟨h0, h2, h3⟩
    · rw [h2, h3, h0]
      exact ⟨hlt, rfl, rfl⟩
    · have hstep : s'.update_count_ % 100 = s.update_count_ % 100 + 1 := by
        by_cases hw : s.update_count_ + 1 < 2 ^ 64
        · rw [Nat.mod_eq_of_lt hw] at h1
          omega
        · have hfull : s.update_count_ + 1 = 2 ^ 64 := by omega
          rw [hfull, Nat.mod_self] at h1
          rw [h1] at h0
          exact absurd rfl h0
      rw [h2, h3, List.length_append, List.length_append, hp, he, hstep]
      exact ⟨hlt, rfl, rfl⟩

theorem run_keeps_window (ops : MathOps K) (stod : String → Option K)
    (stol : String → Option Int) (msgs : List (JValue × Clock K)) (s s' : TradeSimulator K)
    (h : run ops stod stol s msgs = some s')
    (hc : s.update_count_ < 2 ^ 64)
    (hp : s.json_parse_latencies_.length = s.update_count_ % 100)
    (he : s.e2e_latencies_.length = s.update_count_ % 100) :
    s'.update_count_ < 2 ^ 64 ∧
    s'.json_parse_latencies_.length = s'.update_count_ % 100 ∧
    s'.e2e_latencies_.length = s'.update_count_ % 100 := by
  induction msgs generalizing s with
  | nil =>
    simp only [run, Option.some.injEq] at h
    subst h
    exact ⟨hc, hp, he⟩
  | cons m rest ih =>
    unfold run at h
    cases hstep : on_message ops stod stol s m.1 m.2 with
    | none => rw [hstep] at h; exact absurd h (by simp)
    | some s1 =>
      rw [hstep] at h
      obtain ⟨hc1, hp1, he1⟩ := on_message_keeps_window ops stod stol s s1 m.1 m.2 hstep hc hp he
      exact ih s1 h hc1 hp1 he1

theorem run_append (ops : MathOps K) (stod : String → Option K) (stol : String → Option Int)
    (l1 l2 : List (JValue × Clock K)) (s s1 : TradeSimulator K)
    (h : run ops stod stol s l1 = some s1) :
    run ops stod stol s (l1 ++ l2) = run ops stod stol s1 l2 := by
  induction l1 generalizing s with
  | nil =>
    simp only [run, Option.some.injEq] at h
    subst h
    rfl
  | cons m rest ih =>
    have hl : run ops stod stol s (m :: rest) =
        match on_message ops stod stol s m.1 m.2 with
        | some s2 => run ops stod stol s2 rest
        | none => none := rfl
    have hr : run ops stod stol s (m :: rest ++ l2) =
        match on_message ops stod stol s m.1 m.2 with
        | some s2 => run ops stod stol s2 (rest ++ l2)
        | none => none := rfl
    rw [hl] at h
    rw [hr]
    cases hstep : on_message ops stod stol s m.1 m.2 with
    | none => rw [hstep] at h; exact absurd h (by simp)
    | some s2 =>
      rw [hstep] at h
      exact ih s2 h

/-- Fewer messages than remain before the next report: each one is counted,
its samples are appended, and nothing is reported. -/
theorem run_before_report (ops : MathOps K) (stod : String → Option K)
    (stol : String → Option Int) (msgs : List (JValue × Clock K)) (s : TradeSimulator K)
    (hok : ∀ m ∈ msgs, reachesQueue stod stol m.1 = true)
    (hlt : s.update_count_ + msgs.length < 100) :
    ∃ s', run ops stod stol s msgs = some s' ∧
      s'.update_count_ = s.update_count_ + msgs.length ∧
      s'.json_parse_latencies_ = s.json_parse_latencies_ ++
        msgs.map (fun m => m.2.json_parse_end - m.2.e2e_start) ∧
      s'.data_proc_latencies_ = s.data_proc_latencies_ ++
        msgs.map (fun m => m.2.data_proc_end - m.2.json_parse_end) ∧
      s'.e2e_latencies_ = s.e2e_latencies_ ++
        msgs.map (fun m => m.2.calc_end - m.2.e2e_start) ∧
      s'.benchmark_out = s.benchmark_out := by
  induction msgs generalizing s with
  | nil => exact ⟨s, rfl, by simp, by simp, by simp, by simp, rfl⟩
  | cons m rest ih =>
    obtain ⟨s1, hrun, hc, -, hnz⟩ :=
      on_message_counted ops stod stol s m.1 m.2 (hok m (List.mem_cons_self _ _))
    simp only [List.length_cons] at hlt
    have hc1 : s1.update_count_ = s.update_count_ + 1 := by
      rw [hc]
      have h64 : (2 : ℕ) ^ 64 = 18446744073709551616 := by norm_num
      rw [h64]
      omega
    have hne : s1.update_count_ % 100 ≠ 0 := by omega
    obtain ⟨hp, hd, -, he, ho⟩ := hnz hne
    obtain ⟨s', hrun', hc', hp', hd', he', ho'⟩ :=
      ih s1 (fun x hx => hok x (List.mem_cons_of_mem _ hx)) (by omega)
    refine ⟨s', ?_, ?_, ?_, ?_, ?_, ?_⟩
    · unfold run
      rw [hrun]
      exact hrun'
    · rw [hc', hc1, List.length_cons]; omega
    · rw [hp', hp]; simp
    · rw [hd', hd]; simp
    · rw [he', he]; simp
    · rw [ho', ho]

/-- C10. Starting from the initial state, 100 consecutive updates that
`on_message` carries through are all processed; `report_benchmarks` runs
exactly once, on the 100th (after any `k < 100` of them nothing has been
reported); the two means it emits are the arithmetic means of the 100
parse-latency and the 100 end-to-end-latency samples of those updates; and
afterwards the parse, process and end-to-end buffers are empty. After every
sequence of `on_message` calls from the initial state the parse and
end-to-end buffers each hold exactly `update_count_ mod 100` samples, so never
more than 100. -/
theorem hundred_updates_report_once (ops : MathOps K) (stod : String → Option K)
    (stol : String → Option Int) (timestamp : Int) (msgs : List (JValue × Clock K))
    (hlen : msgs.length = 100) (hok : ∀ m ∈ msgs, reachesQueue stod stol m.1 = true) :
    (∃ s', run ops stod stol (TradeSimulator.initial K timestamp) msgs = some s' ∧
      s'.update_count_ = 100 ∧
      s'.benchmark_out =
        [{ update := 100
           avg_json_parse := (msgs.map fun m => m.2.json_parse_end - m.2.e2e_start).sum / 100
           avg_e2e := (msgs.map fun m => m.2.calc_end - m.2.e2e_start).sum / 100 }] ∧
      s'.json_parse_latencies_ = [] ∧ s'.data_proc_latencies_ = [] ∧
      s'.e2e_latencies_ = []) ∧
    (∀ k, k < 100 →
      ∃ sk, run ops stod stol (TradeSimulator.initial K timestamp) (msgs.take k) = some sk ∧
        sk.update_count_ = k ∧ sk.benchmark_out = []) ∧
    (∀ (calls : List (JValue × Clock K)) (t : TradeSimulator K),
      run ops stod stol (TradeSimulator.initial K timestamp) calls = some t →
      t.json_parse_latencies_.length = t.update_count_ % 100 ∧
      t.e2e_latencies_.length = t.update_count_ % 100 ∧
      t.json_parse_latencies_.length ≤ 100 ∧ t.e2e_latencies_.length ≤ 100) := by
  have hprefix : ∀ k, k < 100 →
      ∃ sk, run ops stod stol (TradeSimulator.initial K timestamp) (msgs.take k) = some sk ∧
        sk.update_count_ = k ∧
        sk.json_parse_latencies_ = (msgs.take k).map (fun m => m.2.json_parse_end - m.2.e2e_start) ∧
        sk.e2e_latencies_ = (msgs.take k).map (fun m => m.2.calc_end - m.2.e2e_start) ∧
        sk.benchmark_out = [] := by
    intro k hk
    have hklen : (msgs.take k).length = k := by
      rw [List.length_take, hlen]; omega
    obtain ⟨sk, hrun, hc, hp, -, he, ho⟩ := run_before_report ops stod stol (msgs.take k)
      (TradeSimulator.initial K timestamp)
      (fun m hm => hok m (List.mem_of_mem_take hm))
      (by rw [hklen]; show 0 + k < 100; omega)
    refine ⟨sk, hrun, ?_, ?_, ?_, ?_⟩
    · rw [hc, hklen]; show 0 + k = k; omega
    · rw [hp]; show [] ++ _ = _; simp
    · rw [he]; show [] ++ _ = _; simp
    · rw [ho]; rfl
  refine ⟨?_, ?_, ?_⟩
  · obtain ⟨s99, hrun99, hc99, hp99, he99, ho99⟩ := hprefix 99 (by omega)
    have hdrop : (msgs.drop 99).length = 1 := by
      rw [List.length_drop, hlen]
    obtain ⟨m, hm⟩ := List.length_eq_one.1 hdrop
    have hsplit : msgs = msgs.take 99 ++ [m] := by
      rw [← hm, List.take_append_drop]
    have hmem : m ∈ msgs := by
      rw [hsplit]; simp
    obtain ⟨s', hstep, hc, hz, -⟩ := on_message_counted ops stod stol s99 m.1 m.2 (hok m hmem)
    have hc100 : s'.update_count_ = 100 := by
      rw [hc, hc99]; norm_num
    obtain ⟨hp, hd, -, he, ho⟩ := hz (by rw [hc100])
    refine ⟨s', ?_, hc100, ?_, hp, hd, he⟩
    · rw [hsplit, run_append ops stod stol _ [m] _ s99 hrun99]
      show (match on_message ops stod stol s99 m.1 m.2 with
        | some s1 => run ops stod stol s1 []
        | none => none) = some s'
      rw [hstep]
      rfl
    · rw [ho, ho99, hc100, hp99, he99]
      have e1 : (msgs.take 99).map (fun m => m.2.json_parse_end - m.2.e2e_start) ++
          [m.2.json_parse_end - m.2.e2e_start] =
          msgs.map (fun m => m.2.json_parse_end - m.2.e2e_start) := by
        conv_rhs => rw [hsplit]
        simp
      have e2 : (msgs.take 99).map (fun m => m.2.calc_end - m.2.e2e_start) ++
          [m.2.calc_end - m.2.e2e_start] =
          msgs.map (fun m => m.2.calc_end - m.2.e2e_start) := by
        conv_rhs => rw [hsplit]
        simp
      rw [e1, e2]
      simp [hlen]
  · intro k hk
    obtain ⟨sk, hrun, hc, -, -, ho⟩ := hprefix k hk
    exact ⟨sk, hrun, hc, ho⟩
  · intro calls t ht
    obtain ⟨-, hp, he⟩ := run_keeps_window ops stod stol calls
      (TradeSimulator.initial K timestamp) t ht (by show 0 < 2 ^ 64; norm_num) rfl rfl
    have hmod : t.update_count_ % 100 < 100 := Nat.mod_lt _ (by norm_num)
    exact ⟨hp, he, by omega, by omega⟩

theorem hundred_updates_report_once_witness :
    (List.replicate 100 (messageOf recordGood, sampleClock)).length = 100 ∧
    (∀ m ∈ List.replicate 100 (messageOf recordGood, sampleClock),
      reachesQueue sampleStod sampleStol m.1 = true) ∧
    (∃ s', run sampleOps sampleStod sampleStol (TradeSimulator.initial ℚ 0)
        (List.replicate 100 (messageOf recordGood, sampleClock)) = some s' ∧
      s'.update_count_ = 100 ∧
      s'.benchmark_out =
        [{ update := 100
           avg_json_parse :=
             ((List.replicate 100 (messageOf recordGood, sampleClock)).map
               fun m => m.2.json_parse_end - m.2.e2e_start).sum / 100
           avg_e2e :=
             ((List.replicate 100 (messageOf recordGood, sampleClock)).map
               fun m => m.2.calc_end - m.2.e2e_start).sum / 100 }] ∧
      s'.json_parse_latencies_ = [] ∧ s'.data_proc_latencies_ = [] ∧
      s'.e2e_latencies_ = []) := by
  have hlen : (List.replicate 100 (messageOf recordGood, sampleClock)).length = 100 :=
    List.length_replicate _ _
  have hgood : reachesQueue sampleStod sampleStol (messageOf recordGood) = true := by
    have hv : recordInvalid recordGood = false := by decide
    have hb : (recordGood.get "bids").GetArray =
        [JValue.array [JValue.string "100.0", JValue.string "2.0"]] := rfl
    have ha : (recordGood.get "asks").GetArray =
        [JValue.array [JValue.string "100.2", JValue.string "1.0"]] := rfl
    have ht : (recordGood.get "ts").GetString = "1700000000000" := rfl
    have hp : process_orderbook sampleStod sampleStol
        { bids := [], asks := [], timestamp := 0 } recordGood =
        Outcome.returned { bids := [(100, 2)], asks := [(100.2, 1)],
                           timestamp := 1700000000000 } := by
      unfold process_orderbook
      simp only [hv, hb, ha, ht, Bool.false_eq_true, if_false]
      simp [levelLoop, levelSkipped, JValue.IsArray, JValue.Size, JValue.GetArray, JValue.idx,
        JValue.IsString, JValue.GetString, sampleStod, sampleStol]
    have hm : messageInvalid (messageOf recordGood) = false := rfl
    have hr : (JObject.get (messageOf recordGood).members "data").idx 0 =
        JValue.object recordGood := rfl
    unfold reachesQueue
    rw [hm, hr]
    simp [hp, Outcome.isThrow]
  have hok : ∀ m ∈ List.replicate 100 (messageOf recordGood, sampleClock),
      reachesQueue sampleStod sampleStol m.1 = true := by
    intro m hm
    rw [(List.mem_replicate.1 hm).2]
    exact hgood
  exact ⟨hlen, hok,
    (hundred_updates_report_once sampleOps sampleStod sampleStol 0
      (List.replicate 100 (messageOf recordGood, sampleClock)) hlen hok).1⟩

/-! ### Benchmark reporter on empty buffers -/

/-- The averages `report_benchmarks` writes are the sums divided by
`report_divisors`, whatever the divisors are. -/
theorem report_benchmarks_out (s : TradeSimulator K) :
    (report_benchmarks s).benchmark_out = s.benchmark_out ++
      [{ update := s.update_count_
         avg_json_parse := s.json_parse_latencies_.sum / (report_divisors s).1
         avg_e2e := s.e2e_latencies_.sum / (report_divisors s).2 }] := by
  unfold report_benchmarks report_divisors
  simp only [accumulate_eq_sum]

theorem report_divisors_ne_zero (s : TradeSimulator K) (hp : s.json_parse_latencies_ ≠ [])
    (he : s.e2e_latencies_ ≠ []) :
    (report_divisors s).1 ≠ 0 ∧ (report_divisors s).2 ≠ 0 := by
  unfold report_divisors
  exact ⟨Nat.cast_ne_zero.2 (Nat.pos_iff_ne_zero.1 (List.length_pos.2 hp)),
    Nat.cast_ne_zero.2 (Nat.pos_iff_ne_zero.1 (List.length_pos.2 he))⟩

theorem reachesQueue_recordGood :
    reachesQueue sampleStod sampleStol (messageOf recordGood) = true := by
  have hv : recordInvalid recordGood = false := by decide
  have hb : (recordGood.get "bids").GetArray =
      [JValue.array [JValue.string "100.0", JValue.string "2.0"]] := rfl
  have ha : (recordGood.get "asks").GetArray =
      [JValue.array [JValue.string "100.2", JValue.string "1.0"]] := rfl
  have ht : (recordGood.get "ts").GetString = "1700000000000" := rfl
  have hp : process_orderbook sampleStod sampleStol
      { bids := [], asks := [], timestamp := 0 } recordGood =
      Outcome.returned { bids := [(100, 2)], asks := [(100.2, 1)],
                         timestamp := 1700000000000 } := by
    unfold process_orderbook
    simp only [hv, hb, ha, ht, Bool.false_eq_true, if_false]
    simp [levelLoop, levelSkipped, JValue.IsArray, JValue.Size, JValue.GetArray, JValue.idx,
      JValue.IsString, JValue.GetString, sampleStod, sampleStol]
  have hm : messageInvalid (messageOf recordGood) = false := rfl
  have hr : (JObject.get (messageOf recordGood).members "data").idx 0 =
      JValue.object recordGood := rfl
  unfold reachesQueue
  rw [hm, hr]
  simp [hp, Outcome.isThrow]

/-- C11 (counterexample). A state whose parse and end-to-end buffers are
empty: `report_benchmarks` divides both sums by `0` and still writes a line
with two averages, not the absence of data. -/
theorem report_benchmarks_divides_by_zero :
    (TradeSimulator.initial ℚ 0).json_parse_latencies_ = [] ∧
    (TradeSimulator.initial ℚ 0).e2e_latencies_ = [] ∧
    (report_divisors (TradeSimulator.initial ℚ 0)).1 = 0 ∧
    (report_divisors (TradeSimulator.initial ℚ 0)).2 = 0 ∧
    (report_benchmarks (TradeSimulator.initial ℚ 0)).benchmark_out =
      (TradeSimulator.initial ℚ 0).benchmark_out ++
        [{ update := 0
           avg_json_parse := (([] : List ℚ).sum) / (report_divisors (TradeSimulator.initial ℚ 0)).1
           avg_e2e := (([] : List ℚ).sum) / (report_divisors (TradeSimulator.initial ℚ 0)).2 }] ∧
    (report_benchmarks (TradeSimulator.initial ℚ 0)).benchmark_out ≠
      (TradeSimulator.initial ℚ 0).benchmark_out := by
  refine ⟨rfl, rfl, ?_, ?_, ?_, ?_⟩
  · simp [report_divisors, TradeSimulator.initial]
  · simp [report_divisors, TradeSimulator.initial]
  · exact report_benchmarks_out (TradeSimulator.initial ℚ 0)
  · rw [report_benchmarks_out]
    simp [TradeSimulator.initial]

/-- C11 (amended). `report_benchmarks` has no test for an empty buffer: it
divides each sum by the size of its buffer. On a state whose parse and
end-to-end buffers are both non-empty neither divisor is `0`. `on_message`,
its only caller, invokes it only right after appending one sample to the
parse buffer and one to the end-to-end buffer: a call of `on_message` either
leaves the benchmark output as it was, or runs `report_benchmarks` on a state
whose two buffers are non-empty, so that neither divisor is `0` and the line
written holds the arithmetic means of the two buffers. -/
theorem on_message_reports_on_nonempty_buffers (ops : MathOps K) (stod : String → Option K)
    (stol : String → Option Int) (s s' : TradeSimulator K) (data : JValue) (now : Clock K)
    (h : on_message ops stod stol s data now = some s') :
    (∀ t : TradeSimulator K, t.json_parse_latencies_ ≠ [] → t.e2e_latencies_ ≠ [] →
      (report_divisors t).1 ≠ 0 ∧ (report_divisors t).2 ≠ 0) ∧
    (s'.benchmark_out = s.benchmark_out ∨
      ∃ s3 : TradeSimulator K,
        s' = report_benchmarks s3 ∧
        s3.json_parse_latencies_ =
          s.json_parse_latencies_ ++ [now.json_parse_end - now.e2e_start] ∧
        s3.e2e_latencies_ = s.e2e_latencies_ ++ [now.calc_end - now.e2e_start] ∧
        s3.json_parse_latencies_ ≠ [] ∧ s3.e2e_latencies_ ≠ [] ∧
        (report_divisors s3).1 ≠ 0 ∧ (report_divisors s3).2 ≠ 0 ∧
        s'.benchmark_out = s.benchmark_out ++
          [{ update := s3.update_count_
             avg_json_parse := s3.json_parse_latencies_.sum / (report_divisors s3).1
             avg_e2e := s3.e2e_latencies_.sum / (report_divisors s3).2 }]) := by
  refine ⟨fun t hp he => report_divisors_ne_zero t hp he, ?_⟩
  by_cases hmsg : messageInvalid data = true
  · rw [on_message_invalid ops stod stol s data now hmsg] at h
    simp only [Option.some.injEq] at h
    subst h
    exact Or.inl rfl
  · have hmsg1 : messageInvalid data = false := by simpa using hmsg
    cases hrec : (JObject.get data.members "data").idx 0 with
    | object record =>
      cases hp : process_orderbook stod stol s.orderbook_ record with
      | threw book =>
        rw [on_message_threw ops stod stol s data now record book hmsg1 hrec hp] at h
        simp only [Option.some.injEq] at h
        subst h
        exact Or.inl rfl
      | returned book =>
        obtain ⟨s1, s3, hs1, hs3, hrun⟩ :=
          on_message_returned ops stod stol s data now record book hmsg1 hrec hp
        have hf := calculate_outputs_frame ops { s with logged_json_ := true, orderbook_ := book }
        rw [← hs1] at hf
        obtain ⟨-, hf2, -, -, hf5, -, hf7, -⟩ := hf
        simp only at hf2 hf5 hf7
        have p3 : s3.json_parse_latencies_ =
            s.json_parse_latencies_ ++ [now.json_parse_end - now.e2e_start] := by
          rw [hs3, ← hf2]
        have e3 : s3.e2e_latencies_ = s.e2e_latencies_ ++ [now.calc_end - now.e2e_start] := by
          rw [hs3, ← hf5]
        have o3 : s3.benchmark_out = s.benchmark_out := by rw [hs3, ← hf7]
        have hpne : s3.json_parse_latencies_ ≠ [] := by rw [p3]; simp
        have hene : s3.e2e_latencies_ ≠ [] := by rw [e3]; simp
        rw [hrun] at h
        simp only [Option.some.injEq] at h
        by_cases hrep : s3.update_count_ % benchmark_interval_ = 0
        · rw [if_pos hrep] at h
          refine Or.inr ⟨s3, h.symm, p3, e3, hpne, hene,
            (report_divisors_ne_zero s3 hpne hene).1, (report_divisors_ne_zero s3 hpne hene).2, ?_⟩
          rw [← h, report_benchmarks_out, o3]
        · rw [if_neg hrep] at h
          rw [← h]
          exact Or.inl o3
    | null => unfold on_message at h; simp [hmsg1, hrec] at h
    | bool _ => unfold on_message at h; simp [hmsg1, hrec] at h
    | number _ => unfold on_message at h; simp [hmsg1, hrec] at h
    | string _ => unfold on_message at h; simp [hmsg1, hrec] at h
    | array _ => unfold on_message at h; simp [hmsg1, hrec] at h

theorem on_message_reports_on_nonempty_buffers_witness :
    ∃ s', on_message sampleOps sampleStod sampleStol stateBeforeReport
        (messageOf recordGood) sampleClock = some s' ∧
      s'.benchmark_out ≠ stateBeforeReport.benchmark_out ∧
      ((∀ t : TradeSimulator ℚ, t.json_parse_latencies_ ≠ [] → t.e2e_latencies_ ≠ [] →
        (report_divisors t).1 ≠ 0 ∧ (report_divisors t).2 ≠ 0) ∧
      (s'.benchmark_out = stateBeforeReport.benchmark_out ∨
        ∃ s3 : TradeSimulator ℚ,
          s' = report_benchmarks s3 ∧
          s3.json_parse_latencies_ =
            stateBeforeReport.json_parse_latencies_ ++
              [sampleClock.json_parse_end - sampleClock.e2e_start] ∧
          s3.e2e_latencies_ =
            stateBeforeReport.e2e_latencies_ ++ [sampleClock.calc_end - sampleClock.e2e_start] ∧
          s3.json_parse_latencies_ ≠ [] ∧ s3.e2e_latencies_ ≠ [] ∧
          (report_divisors s3).1 ≠ 0 ∧ (report_divisors s3).2 ≠ 0 ∧
          s'.benchmark_out = stateBeforeReport.benchmark_out ++
            [{ update := s3.update_count_
               avg_json_parse := s3.json_parse_latencies_.sum / (report_divisors s3).1
               avg_e2e := s3.e2e_latencies_.sum / (report_divisors s3).2 }])) := by
  obtain ⟨s', hrun, hc, hz, -⟩ := on_message_counted sampleOps sampleStod sampleStol
    stateBeforeReport (messageOf recordGood) sampleClock reachesQueue_recordGood
  have hc100 : s'.update_count_ = 100 := by
    rw [hc]
    show (99 + 1) % 2 ^ 64 = 100
    norm_num
  have hout := (hz (by rw [hc100])).2.2.2.2
  refine ⟨s', hrun, ?_,
    on_message_reports_on_nonempty_buffers sampleOps sampleStod sampleStol stateBeforeReport s'
      (messageOf recordGood) sampleClock hrun⟩
  rw [hout]
  simp

end PipelineFacts

end TradeSim
